import Mathlib

/-!
# ws/connection.go

A shallow embedding of the `ws` package (`Connection`, `NewConnection`,
`ListenAndRespond`, `SendResponse`, `Close`) and theorems about it.

The package is a thin layer over `github.com/gorilla/websocket`, `sync.Mutex`
and `net/http`.  Those libraries are not part of the package, so the websocket
transport is a parameter of every definition (`Websocket`): a state type `σ`
for one `*websocket.Conn` and one function per method the package calls.
Every call the package issues is also appended to a trace, so that the order
and the arguments of the calls can be stated.  Concurrent calls of
`SendResponse` and `Close` are goroutines that a schedule interleaves step by
step (`Pool`, `step`, `run`), the mutex being a flag that `Lock` takes
atomically.

* `error` values are `Option ε`, `none` being Go's `nil`;
* pointers are addresses (`Nat`) into the heaps of the `World`;
* `[]byte` is `List Nat`;
* `time.Time` and `time.Duration` are integers counting nanoseconds.
-/

namespace Ws

/-! ## Constants -/

/-- The constant `time.Second`, a `time.Duration` in nanoseconds. -/
def Second : Int := 1000000000

/-- Line 12: `writeWait = 10 * time.Second`. -/
def writeWait : Int := 10 * Second

/-- Line 13: `maxMessageSize = 256 * 256`. -/
def maxMessageSize : Int := 256 * 256

/-! ## net/http headers -/

/-- A `[]byte` value. -/
abbrev Bytes := List Nat

/-- An `http.Header` value that is not nil: a map from keys to value lists,
kept as an association list. -/
abbrev Header := List (String × List String)

/-- Map indexing `h[key]` on a header (the first entry of the association
list with that key; a missing key gives the empty slice). -/
def Header.index : Header → String → List String
  | [], _ => []
  | (k, vs) :: rest, key => if k = key then vs else Header.index rest key

/-- The bytes `textproto` accepts in a header field name (token characters). -/
def validHeaderFieldByte (c : Char) : Bool :=
  c.isAlphanum || c ∈ ['!', '#', '$', '%', '&', '\'', '*', '+', '-', '.', '^', '_', '\x60', '|', '~']

/-- The loop of `textproto.canonicalMIMEHeaderKey`: the first letter and every
letter after a hyphen in upper case, all others in lower case. -/
def canonicalLoop : Bool → List Char → List Char
  | _, [] => []
  | upper, c :: cs =>
    (if upper then c.toUpper else c.toLower) :: canonicalLoop (c == '-') cs

/-- The function `textproto.CanonicalMIMEHeaderKey`: a key with a byte that
is not a token character is returned unchanged. -/
def CanonicalMIMEHeaderKey (s : String) : String :=
  if s.data.all validHeaderFieldByte then String.mk (canonicalLoop true s.data) else s

/-- The method `http.Header.Get`: the first value stored under the canonical
form of `key`, or `""`. -/
def Header.Get (h : Header) (key : String) : String :=
  match Header.index h (CanonicalMIMEHeaderKey key) with
  | [] => ""
  | v :: _ => v

/-- The part of `*http.Request` the package reads. -/
structure Request where
  Header : Header
  deriving DecidableEq

/-! ## The websocket library, as a parameter -/

/-- What `Upgrader.Upgrade` returns: `(*websocket.Conn, error)`. -/
structure UpgradeResult (σ ε : Type) where
  conn : σ
  err : Option ε

/-- What `Conn.ReadMessage` returns: `(messageType int, p []byte, err error)`. -/
structure ReadResult (ε : Type) where
  messageType : Int
  p : Bytes
  err : Option ε

/-- The methods of `github.com/gorilla/websocket` the package calls.  `σ` is
the state of one `*websocket.Conn`, `ε` the error values, `ν` the values given
to `WriteJSON`, `ρ` the `http.ResponseWriter`. -/
structure Websocket (σ ε ν ρ : Type) where
  Upgrade : ρ → Request → Option Header → UpgradeResult σ ε
  SetReadLimit : Int → σ → σ
  ReadMessage : σ → ReadResult ε × σ
  SetWriteDeadline : Int → σ → Option ε × σ
  WriteJSON : ν → σ → Option ε × σ
  Close : σ → Option ε × σ

/-! ## Data model -/

/-- Lines 28-32: `type Connection struct { conn; mu; handler }`.  `conn` and
`mu` are pointers; `handler` is the function value, named by an `η`. -/
structure Connection (η : Type) where
  conn : Nat
  mu : Nat
  handler : η
  deriving DecidableEq

/-- One call issued by the package, with its arguments. -/
inductive Event (η ν ρ : Type) where
  | upgrade (w : ρ) (r : Request) (responseHeader : Option Header)
  | setReadLimit (conn : Nat) (limit : Int)
  | readMessage (conn : Nat)
  | go (handler : η) (c : Connection η) (msg : Bytes)
  | lock (mu : Nat)
  | unlock (mu : Nat)
  | setWriteDeadline (conn : Nat) (t : Int)
  | writeJSON (conn : Nat) (res : ν)
  | close (conn : Nat)
  deriving DecidableEq

/-- The state the package runs in: the heap of `websocket.Conn` objects, the
heap of `sync.Mutex` objects (`true` is locked), the next free address of
each, the reading of the clock, and the trace of calls issued so far. -/
structure World (σ η ν ρ : Type) where
  conns : Nat → σ
  mus : Nat → Bool
  nextConn : Nat
  nextMu : Nat
  now : Int
  trace : List (Event η ν ρ)

/-- Store `v` at address `a`. -/
def store {α : Type} (heap : Nat → α) (a : Nat) (v : α) : Nat → α :=
  fun b => if b = a then v else heap b

variable {σ ε η ν ρ : Type}

/-- Append one event to the trace. -/
def World.emit (st : World σ η ν ρ) (e : Event η ν ρ) : World σ η ν ρ :=
  { st with trace := st.trace ++ [e] }

/-- Replace the state of the connection object at address `a`. -/
def World.setConn (st : World σ η ν ρ) (a : Nat) (s : σ) : World σ η ν ρ :=
  { st with conns := store st.conns a s }

/-- Replace the state of the mutex at address `a`. -/
def World.setMu (st : World σ η ν ρ) (a : Nat) (b : Bool) : World σ η ν ρ :=
  { st with mus := store st.mus a b }

/-! ## The package -/

/-- Lines 36-42 of `NewConnection`: the response header built from the
request. -/
def responseHeaderOf (r : Request) : Option Header :=
  let protocol := r.Header.Get "Sec-WebSocket-Protocol"
  if protocol ≠ "" then
    some [("Sec-WebSocket-Protocol", [protocol])]
  else
    none

/-- Lines 35-55: `NewConnection(w, r, handler)`.  Returns
`(*Connection, error)`; a nil `*Connection` is `none`. -/
def NewConnection (T : Websocket σ ε ν ρ) (w : ρ) (r : Request) (handler : η)
    (st : World σ η ν ρ) : (Option (Connection η) × Option ε) × World σ η ν ρ :=
  let responseHeader := responseHeaderOf r
  -- open a websocket connection
  let up := T.Upgrade w r responseHeader
  let st1 := st.emit (.upgrade w r responseHeader)
  match up.err with
  | some err => ((none, some err), st1)
  | none =>
    -- the object `conn` points to
    let conn := st1.nextConn
    let st2 := { st1.setConn conn up.conn with nextConn := conn + 1 }
    -- set the message read limit
    let st3 := (st2.setConn conn (T.SetReadLimit maxMessageSize (st2.conns conn))).emit
      (.setReadLimit conn maxMessageSize)
    -- `&sync.Mutex{}`
    let mu := st3.nextMu
    let st4 := { st3.setMu mu false with nextMu := mu + 1 }
    ((some { conn := conn, handler := handler, mu := mu }, none), st4)

/-- Lines 59-69: `ListenAndRespond`.  The `for` loop runs at most `fuel`
iterations; the first component is `none` when the loop is still running after
them, and `some err` when the function has returned `err`. -/
def ListenAndRespond (T : Websocket σ ε ν ρ) (c : Connection η) :
    Nat → World σ η ν ρ → Option (Option ε) × World σ η ν ρ
  | 0, st => (none, st)
  | fuel + 1, st =>
    -- wait on read
    let rd := T.ReadMessage (st.conns c.conn)
    let st1 := (st.setConn c.conn rd.2).emit (.readMessage c.conn)
    match rd.1.err with
    | some err => (some (some err), st1)
    | none =>
      -- handle the message
      ListenAndRespond T c fuel (st1.emit (.go c.handler c rd.1.p))

/-- Lines 72-79: `SendResponse`.  `none` when `c.mu.Lock()` blocks (the mutex
is held and nothing in a sequential run releases it). -/
def SendResponse (T : Websocket σ ε ν ρ) (c : Connection η) (res : ν)
    (st : World σ η ν ρ) : Option (Option ε × World σ η ν ρ) :=
  -- writes are not thread safe
  if st.mus c.mu then none
  else
    let st1 := (st.setMu c.mu true).emit (.lock c.mu)
    -- write response to websocket
    let deadline := st1.now + writeWait
    let wd := T.SetWriteDeadline deadline (st1.conns c.conn)
    let st2 := (st1.setConn c.conn wd.2).emit (.setWriteDeadline c.conn deadline)
    let wr := T.WriteJSON res (st2.conns c.conn)
    let st3 := (st2.setConn c.conn wr.2).emit (.writeJSON c.conn res)
    -- deferred `c.mu.Unlock()`
    let st4 := (st3.setMu c.mu false).emit (.unlock c.mu)
    some (wr.1, st4)

/-- Lines 82-88: `Close`.  `none` when `c.mu.Lock()` blocks. -/
def Close (T : Websocket σ ε ν ρ) (c : Connection η)
    (st : World σ η ν ρ) : Option (World σ η ν ρ) :=
  -- ensure we aren't closing during a write
  if st.mus c.mu then none
  else
    let st1 := (st.setMu c.mu true).emit (.lock c.mu)
    -- close websocket connection
    let cl := T.Close (st1.conns c.conn)
    let st2 := (st1.setConn c.conn cl.2).emit (.close c.conn)
    -- deferred `c.mu.Unlock()`
    some ((st2.setMu c.mu false).emit (.unlock c.mu))

/-! ## Reading the trace -/

/-- The handler invocations (`go c.handler(c, msg)`) of a trace, in order:
the function value, the connection and the bytes of each. -/
def spawns : List (Event η ν ρ) → List (η × Connection η × Bytes)
  | [] => []
  | .go h c m :: es => (h, c, m) :: spawns es
  | .upgrade _ _ _ :: es => spawns es
  | .setReadLimit _ _ :: es => spawns es
  | .readMessage _ :: es => spawns es
  | .lock _ :: es => spawns es
  | .unlock _ :: es => spawns es
  | .setWriteDeadline _ _ :: es => spawns es
  | .writeJSON _ _ :: es => spawns es
  | .close _ :: es => spawns es

/-- Is the event a `Close` call on a transport? -/
def Event.isClose : Event η ν ρ → Bool
  | .close _ => true
  | _ => false

/-- Is the event a `ReadMessage` call? -/
def Event.isRead : Event η ν ρ → Bool
  | .readMessage _ => true
  | _ => false

/-- Is the event a `WriteJSON` call? -/
def Event.isWrite : Event η ν ρ → Bool
  | .writeJSON _ _ => true
  | _ => false

/-- The events of a loop that reads the messages `ms` successfully: one read
and one handler invocation per message. -/
def loopEvents (c : Connection η) : List Bytes → List (Event η ν ρ)
  | [] => []
  | m :: ms => .readMessage c.conn :: .go c.handler c m :: loopEvents c ms

/-- Starting in state `s`, the successive calls of `ReadMessage` return the
messages `ms` without error, the next call fails with `e`, and the transport
is then in state `s'`. -/
def ReadsThenFails (T : Websocket σ ε ν ρ) : σ → List Bytes → ε → σ → Prop
  | s, [], e, s' => (T.ReadMessage s).1.err = some e ∧ (T.ReadMessage s).2 = s'
  | s, m :: ms, e, s' =>
    (T.ReadMessage s).1.err = none ∧ (T.ReadMessage s).1.p = m ∧
      ReadsThenFails T (T.ReadMessage s).2 ms e s'

/-- The state of a transport after `n` calls of `ReadMessage`. -/
def afterReads (T : Websocket σ ε ν ρ) : Nat → σ → σ
  | 0, s => s
  | n + 1, s => afterReads T n (T.ReadMessage s).2

/-! ## Goroutines calling `SendResponse` and `Close` on one connection

The two methods are cut at the calls they make: each call on the mutex or on
the transport is one atomic step, except `WriteJSON` and `Close` on the
transport, which begin in one step and return in a later one, so that another
goroutine could run between the two if nothing stopped it.  A schedule picks
which goroutine makes the next step; a goroutine whose next step is
`c.mu.Lock()` on a held mutex cannot be picked. -/

/-- A call of a method of the connection by one goroutine. -/
inductive Call (ν : Type) where
  | send (res : ν)
  | close
  deriving DecidableEq

/-- One step of `SendResponse` or `Close`. -/
inductive Instr (ν : Type) where
  | lock
  | setWriteDeadline
  | writeBegin (res : ν)
  | writeEnd (res : ν)
  | closeBegin
  | closeEnd
  | unlock
  deriving DecidableEq

/-- The steps of `SendResponse(res)` (lines 74-78) and of `Close()` (lines
84-87), the deferred `Unlock` last. -/
def program : Call ν → List (Instr ν)
  | .send res => [.lock, .setWriteDeadline, .writeBegin res, .writeEnd res, .unlock]
  | .close => [.lock, .closeBegin, .closeEnd, .unlock]

/-- A goroutine in a call: the call, the number of steps made, and the error
its `WriteJSON` has returned. -/
structure Goroutine (ε ν : Type) where
  call : Call ν
  pc : Nat
  ret : Option ε
  deriving DecidableEq

/-- Has the call returned? -/
def Goroutine.returned (g : Goroutine ε ν) : Bool :=
  g.pc == (program g.call).length

/-- Is the goroutine between its `Lock` and its `Unlock`, that is, operating
on the transport? -/
def Goroutine.inside (g : Goroutine ε ν) : Bool :=
  decide (0 < g.pc) && decide (g.pc < (program g.call).length)

/-- The goroutine after a step that leaves `ret` as the error to return. -/
def Goroutine.advance (g : Goroutine ε ν) (ret : Option ε) : Goroutine ε ν :=
  { g with pc := g.pc + 1, ret := ret }

/-- The effect of one step on the world, and on the error the call will
return; `none` when the step is a `Lock` on a held mutex. -/
def exec (T : Websocket σ ε ν ρ) (c : Connection η) (ins : Instr ν) (ret : Option ε)
    (st : World σ η ν ρ) : Option (Option ε × World σ η ν ρ) :=
  match ins with
  | .lock =>
    if st.mus c.mu then none else some (ret, (st.setMu c.mu true).emit (.lock c.mu))
  | .setWriteDeadline =>
    let deadline := st.now + writeWait
    let wd := T.SetWriteDeadline deadline (st.conns c.conn)
    some (ret, (st.setConn c.conn wd.2).emit (.setWriteDeadline c.conn deadline))
  | .writeBegin _ => some (ret, st)
  | .writeEnd res =>
    let wr := T.WriteJSON res (st.conns c.conn)
    some (wr.1, (st.setConn c.conn wr.2).emit (.writeJSON c.conn res))
  | .closeBegin => some (ret, st)
  | .closeEnd =>
    let cl := T.Close (st.conns c.conn)
    some (ret, (st.setConn c.conn cl.2).emit (.close c.conn))
  | .unlock => some (ret, (st.setMu c.mu false).emit (.unlock c.mu))

/-- The goroutines at work on one connection: the world, the goroutines, and
the log of the steps made, each with the number of its goroutine. -/
structure Pool (σ ε η ν ρ : Type) where
  world : World σ η ν ρ
  goroutines : List (Goroutine ε ν)
  log : List (Nat × Instr ν)

/-- Goroutine `i` makes its next step; `none` when it has returned, is
blocked, or does not exist. -/
def step (T : Websocket σ ε ν ρ) (c : Connection η) (i : Nat) (p : Pool σ ε η ν ρ) :
    Option (Pool σ ε η ν ρ) :=
  match p.goroutines[i]? with
  | none => none
  | some g =>
    match (program g.call)[g.pc]? with
    | none => none
    | some ins =>
      match exec T c ins g.ret p.world with
      | none => none
      | some out =>
        some { world := out.2,
               goroutines := p.goroutines.set i (g.advance out.1),
               log := p.log ++ [(i, ins)] }

/-- A choice of the scheduler: let a goroutine make a step, or let time
pass. -/
inductive Choice where
  | goroutine (i : Nat)
  | tick (d : Nat)
  deriving DecidableEq

/-- Run a schedule; a choice of a goroutine that cannot make a step is
skipped. -/
def run (T : Websocket σ ε ν ρ) (c : Connection η) :
    List Choice → Pool σ ε η ν ρ → Pool σ ε η ν ρ
  | [], p => p
  | .goroutine i :: rest, p => run T c rest ((step T c i p).getD p)
  | .tick d :: rest, p =>
    run T c rest { p with world := { p.world with now := p.world.now + d } }

/-- The pool in which every call of `calls` is about to begin. -/
def start (st : World σ η ν ρ) (calls : List (Call ν)) : Pool σ ε η ν ρ where
  world := st
  goroutines := calls.map (fun cl => { call := cl, pc := 0, ret := none })
  log := []

/-- The steps goroutine `i` has made so far, with its number. -/
def executed (p : Pool σ ε η ν ρ) (i : Nat) : List (Nat × Instr ν) :=
  match p.goroutines[i]? with
  | none => []
  | some g => ((program g.call).take g.pc).map (fun ins => (i, ins))

/-- All the steps of call number `i` of `calls`, with that number. -/
def block (calls : List (Call ν)) (i : Nat) : List (Nat × Instr ν) :=
  match calls[i]? with
  | none => []
  | some cl => (program cl).map (fun ins => (i, ins))

/-- The steps still to make, over all goroutines. -/
def remaining (p : Pool σ ε η ν ρ) : Nat :=
  (p.goroutines.map (fun g => (program g.call).length - g.pc)).sum

/-- The invariant of a pool: `fin` lists the goroutines that have returned,
in the order in which they took the lock, `cur` is the goroutine between its
`Lock` and its `Unlock`, if there is one, the mutex is held exactly when
there is one, and the log is the steps of the goroutines of `fin`, one
goroutine after the other, followed by the steps `cur` has made. -/
structure Serial (c : Connection η) (calls : List (Call ν)) (p : Pool σ ε η ν ρ)
    (fin : List Nat) (cur : Option Nat) : Prop where
  calls_eq : p.goroutines.map (fun g => g.call) = calls
  pc_le : ∀ (i : Nat) (g : Goroutine ε ν), p.goroutines[i]? = some g →
    g.pc ≤ (program g.call).length
  nodup : (fin ++ cur.toList).Nodup
  fin_iff : ∀ i, i ∈ fin ↔ ∃ g, p.goroutines[i]? = some g ∧ g.returned = true
  cur_iff : ∀ i, cur = some i ↔ ∃ g, p.goroutines[i]? = some g ∧ g.inside = true
  mu_eq : p.world.mus c.mu = cur.isSome
  log_eq : p.log = (fin ++ cur.toList).flatMap (executed p)

/-! ### Whole calls, one after the other

What the goroutines do is compared with the methods themselves
(`SendResponse`, `Close`) called one at a time. -/

/-- The world with the clock reading `t`. -/
def World.setNow (st : World σ η ν ρ) (t : Int) : World σ η ν ρ :=
  { st with now := t }

/-- Steps made one after the other by one goroutine, nothing in between. -/
def execs (T : Websocket σ ε ν ρ) (c : Connection η) :
    List (Instr ν) → Option ε → World σ η ν ρ → Option (Option ε × World σ η ν ρ)
  | [], ret, st => some (ret, st)
  | ins :: rest, ret, st =>
    match exec T c ins ret st with
    | none => none
    | some out => execs T c rest out.1 out.2

/-- One whole call of `SendResponse` or `Close`, made when the clock reads
`x.2`: the error it returns (`Close` returns nothing, `none`) and the world
after it. -/
def callAt (T : Websocket σ ε ν ρ) (c : Connection η) (x : Call ν × Int)
    (st : World σ η ν ρ) : Option (Option ε × World σ η ν ρ) :=
  match x.1 with
  | .send res => SendResponse T c res (st.setNow x.2)
  | .close => (Close T c (st.setNow x.2)).map (fun st2 => (none, st2))

/-- Whole calls made one after the other, each at its clock reading: the
errors returned, in order, and the world after the last. -/
def serial (T : Websocket σ ε ν ρ) (c : Connection η) :
    List (Call ν × Int) → World σ η ν ρ → Option (List (Option ε) × World σ η ν ρ)
  | [], st => some ([], st)
  | x :: xs, st =>
    match callAt T c x st with
    | none => none
    | some out =>
      match serial T c xs out.2 with
      | none => none
      | some outs => some (out.1 :: outs.1, outs.2)

/-- The error held by goroutine `i` (the value its call returns). -/
def retOf (p : Pool σ ε η ν ρ) (i : Nat) : Option ε :=
  match p.goroutines[i]? with
  | none => none
  | some g => g.ret

/-- The calls one whole `SendResponse` or `Close` issues when the clock reads
`x.2`. -/
def callEvents (c : Connection η) (x : Call ν × Int) : List (Event η ν ρ) :=
  match x.1 with
  | .send res =>
    [.lock c.mu, .setWriteDeadline c.conn (x.2 + writeWait), .writeJSON c.conn res,
      .unlock c.mu]
  | .close => [.lock c.mu, .close c.conn, .unlock c.mu]

/-- Is the call a `SendResponse`? -/
def Call.isSend : Call ν → Bool
  | .send _ => true
  | .close => false

/-- The world of a pool against whole calls: the calls `sc` of the goroutines
of `fin`, made one after the other from the world `st`, return `rs` and end in
`w`; the goroutines of `fin` hold those errors; with no goroutine inside, the
world of the pool is `w` (but for the clock); with goroutine `cur` inside, it
is `w` followed by the steps that goroutine has made. -/
structure Replayed (T : Websocket σ ε ν ρ) (c : Connection η) (st : World σ η ν ρ)
    (calls : List (Call ν)) (p : Pool σ ε η ν ρ) (fin : List Nat) (cur : Option Nat)
    (sc : List (Call ν × Int)) (rs : List (Option ε)) (w : World σ η ν ρ) : Prop where
  calls_of : fin.map (fun i => calls[i]?) = sc.map (fun x => some x.1)
  serial_eq : serial T c sc st = some (rs, w)
  rets : fin.map (retOf p) = rs
  free : w.mus c.mu = false
  fresh : ∀ (i : Nat) (g : Goroutine ε ν), p.goroutines[i]? = some g → g.pc = 0 →
    g.ret = none
  idle : cur = none → p.world.setNow w.now = w
  busy : ∀ j, cur = some j → ∃ (g : Goroutine ε ν) (t : Int) (out : Option ε × World σ η ν ρ),
    p.goroutines[j]? = some g ∧
    execs T c ((program g.call).take g.pc) none (w.setNow t) = some out ∧
    out.1 = g.ret ∧ p.world.setNow t = out.2

/-! ## The read-limit contract of the library -/

/-- What the websocket library promises about `SetReadLimit` ("sets the
maximum size in bytes for a message read from the peer; if a message exceeds
the limit, the connection returns ErrReadLimit to the application"), stated
for a transport `T`: `limit s` is the limit configured in state `s` and
`pending s` the message of the peer that the next read will meet. -/
structure ReadLimitContract (T : Websocket σ ε ν ρ) (limit : σ → Int)
    (pending : σ → Option Bytes) (ErrReadLimit : ε) : Prop where
  set_limit : ∀ n s, limit (T.SetReadLimit n s) = n
  read_keeps_limit : ∀ s, limit (T.ReadMessage s).2 = limit s
  too_long : ∀ s m, pending s = some m → 0 < limit s → limit s < (m.length : Int) →
    (T.ReadMessage s).1.err = some ErrReadLimit
  within : ∀ s m, pending s = some m → (m.length : Int) ≤ limit s →
    (T.ReadMessage s).1.err ≠ some ErrReadLimit

/-! ## A simulated peer

A small transport to run the package on: the peer's messages wait in an
inbox, a read takes the first one, a write appends to the wire. -/

/-- The errors of the simulated transport. -/
inductive SimError where
  | handshake
  | readLimit
  | closed
  | eof
  deriving DecidableEq

/-- The state of a simulated connection. -/
structure SimConn where
  inbox : List Bytes
  readLimit : Int
  writeDeadline : Int
  wire : List String
  closed : Bool
  deriving DecidableEq

/-- The simulated transport.  The upgrade succeeds when the request carries
`Upgrade: websocket`; the `ρ` argument is the list of messages the peer will
send.  A message longer than a positive read limit fails the read. -/
def Sim : Websocket SimConn SimError String (List Bytes) where
  Upgrade := fun w r _ =>
    if r.Header.Get "Upgrade" = "websocket" then
      { conn := { inbox := w, readLimit := 0, writeDeadline := 0, wire := [], closed := false },
        err := none }
    else
      { conn := { inbox := [], readLimit := 0, writeDeadline := 0, wire := [], closed := true },
        err := some .handshake }
  SetReadLimit := fun n s => { s with readLimit := n }
  ReadMessage := fun s =>
    if s.closed then ({ messageType := -1, p := [], err := some .closed }, s)
    else
      match s.inbox with
      | [] => ({ messageType := -1, p := [], err := some .eof }, { s with closed := true })
      | m :: rest =>
        if 0 < s.readLimit ∧ s.readLimit < (m.length : Int) then
          ({ messageType := -1, p := [], err := some .readLimit }, { s with inbox := rest })
        else
          ({ messageType := 1, p := m, err := none }, { s with inbox := rest })
  SetWriteDeadline := fun t s => (none, { s with writeDeadline := t })
  WriteJSON := fun v s =>
    if s.closed then (some .closed, s) else (none, { s with wire := s.wire ++ [v] })
  Close := fun s => if s.closed then (some .closed, s) else (none, { s with closed := true })

/-- A world with one simulated connection at address 0, whose peer has sent
the messages `inbox`, and one free mutex at address 0. -/
def simWorld (inbox : List Bytes) : World SimConn Nat String (List Bytes) where
  conns := fun _ =>
    { inbox := inbox, readLimit := maxMessageSize, writeDeadline := 0, wire := [], closed := false }
  mus := fun _ => false
  nextConn := 1
  nextMu := 1
  now := 1700000000000000000
  trace := []

/-- An empty world: nothing allocated yet. -/
def emptyWorld : World SimConn Nat String (List Bytes) where
  conns := fun _ =>
    { inbox := [], readLimit := 0, writeDeadline := 0, wire := [], closed := true }
  mus := fun _ => false
  nextConn := 0
  nextMu := 0
  now := 1700000000000000000
  trace := []

/-- The world `simWorld []` after the transport at address 0 has been
closed. -/
def closedSimWorld : World SimConn Nat String (List Bytes) :=
  (simWorld []).setConn 0
    { inbox := [], readLimit := 0, writeDeadline := 0, wire := [], closed := true }

/-- An upgrade request that asks for the sub-protocol `veldt`, as `net/http`
stores it (keys in canonical form). -/
def upgradeRequest : Request :=
  { Header := [("Upgrade", ["websocket"]), ("Sec-Websocket-Protocol", ["veldt"])] }

/-- An upgrade request without a sub-protocol. -/
def plainRequest : Request :=
  { Header := [("Upgrade", ["websocket"])] }

/-- A request that is not an upgrade request. -/
def badRequest : Request :=
  { Header := [("Accept", ["text/html"])] }

/-- The message the next read of a simulated connection will meet. -/
def simPending (s : SimConn) : Option Bytes :=
  if s.closed then none else s.inbox.head?

/-- Three calls on the simulated connection: two sends and a close. -/
def demoCalls : List (Call String) := [.send "a", .send "b", .close]

/-- A schedule for `demoCalls`: goroutine 1 takes the lock, the others are
picked while it holds it, time passes, then goroutine 2 and goroutine 0. -/
def demoSchedule : List Choice :=
  [.goroutine 1, .goroutine 0, .goroutine 1, .goroutine 2, .tick 5, .goroutine 1,
   .goroutine 1, .goroutine 0, .goroutine 1, .goroutine 2, .goroutine 2, .goroutine 2,
   .goroutine 2, .goroutine 0, .goroutine 0, .goroutine 0, .goroutine 0, .goroutine 0]

/-- The connection of `simWorld`, with handler number 7. -/
def simConnection : Connection Nat := { conn := 0, mu := 0, handler := 7 }

/-! ## Theorems -/

/-! ### Heaps and traces -/

@[simp] theorem store_same {α : Type} (heap : Nat → α) (a : Nat) (v : α) :
    store heap a v a = v := by
  simp [store]

theorem store_other {α : Type} (heap : Nat → α) (a b : Nat) (v : α) (h : b ≠ a) :
    store heap a v b = heap b := by
  simp [store, h]

@[simp] theorem store_store {α : Type} (heap : Nat → α) (a : Nat) (v v2 : α) :
    store (store heap a v) a v2 = store heap a v2 := by
  funext b
  by_cases h : b = a <;> simp [store, h]

@[simp] theorem spawns_append (xs ys : List (Event η ν ρ)) :
    spawns (xs ++ ys) = spawns xs ++ spawns ys := by
  induction xs with
  | nil => rfl
  | cons x xs ih => cases x <;> simp [spawns, ih]

theorem spawns_loopEvents (c : Connection η) (ms : List Bytes) :
    spawns (loopEvents c ms : List (Event η ν ρ)) = ms.map (fun m => (c.handler, c, m)) := by
  induction ms with
  | nil => rfl
  | cons m ms ih => simp [loopEvents, spawns, ih]

/-! ### The read loop -/

/-- The world the loop returns in when the reads give `ms` and then fail,
leaving the transport in state `s2`. -/
theorem ListenAndRespond_run (T : Websocket σ ε ν ρ) (c : Connection η) (ms : List Bytes) :
    ∀ (st : World σ η ν ρ) (e : ε) (s2 : σ) (fuel : Nat),
      ReadsThenFails T (st.conns c.conn) ms e s2 → ms.length < fuel →
      ListenAndRespond T c fuel st =
        (some (some e),
          { st with
            conns := store st.conns c.conn s2,
            trace := st.trace ++ (loopEvents c ms ++ [.readMessage c.conn]) }) := by
  induction ms with
  | nil =>
    intro st e s2 fuel h hf
    obtain ⟨fuel, rfl⟩ : ∃ k, fuel = k + 1 := ⟨fuel - 1, by simp at hf; omega⟩
    obtain ⟨h1, h2⟩ := h
    simp only [ListenAndRespond, h1, h2, World.emit, World.setConn, loopEvents, List.nil_append]
  | cons m ms ih =>
    intro st e s2 fuel h hf
    obtain ⟨fuel, rfl⟩ : ∃ k, fuel = k + 1 := ⟨fuel - 1, by simp at hf; omega⟩
    obtain ⟨h1, h2, h3⟩ := h
    have hf2 : ms.length < fuel := by simpa using hf
    simp only [ListenAndRespond, h1, h2]
    rw [ih _ e s2 fuel (by simpa [World.emit, World.setConn] using h3) hf2]
    simp [World.emit, World.setConn, loopEvents]

/-- When the loop has returned, its reads gave some messages and then failed. -/
theorem ListenAndRespond_returned (T : Websocket σ ε ν ρ) (c : Connection η) :
    ∀ (fuel : Nat) (st : World σ η ν ρ) (r : Option ε),
      (ListenAndRespond T c fuel st).1 = some r →
      ∃ ms e s2, ms.length < fuel ∧ r = some e ∧
        ReadsThenFails T (st.conns c.conn) ms e s2 := by
  intro fuel
  induction fuel with
  | zero => intro st r h; simp [ListenAndRespond] at h
  | succ fuel ih =>
    intro st r h
    simp only [ListenAndRespond] at h
    cases herr : (T.ReadMessage (st.conns c.conn)).1.err with
    | some e =>
      rw [herr] at h
      simp at h
      exact ⟨[], e, (T.ReadMessage (st.conns c.conn)).2, by simp, h.symm, herr, rfl⟩
    | none =>
      rw [herr] at h
      obtain ⟨ms, e, s2, hlen, hr, hreads⟩ := ih _ r h
      refine ⟨(T.ReadMessage (st.conns c.conn)).1.p :: ms, e, s2, by simpa using hlen, hr, ?_⟩
      refine ⟨herr, rfl, ?_⟩
      simpa [World.emit, World.setConn] using hreads

/-- C1: when the reads of the transport return the messages `ms` without
error and the next read fails, `ListenAndRespond` (given more iterations than
there are messages) issues, after what was already in the trace, exactly one
read and one `go c.handler(c, m)` per message `m` of `ms`, in the order of
`ms`, followed by the failing read: the handler invocations it adds are
`handler(c, m1), ..., handler(c, mn)`, with the same `c`, the bytes of each
message unchanged, none skipped, duplicated or reordered. -/
theorem ListenAndRespond_spawns_each_message_in_order (T : Websocket σ ε ν ρ)
    (c : Connection η) (st : World σ η ν ρ) (ms : List Bytes) (e : ε) (s2 : σ) (fuel : Nat)
    (hreads : ReadsThenFails T (st.conns c.conn) ms e s2) (hfuel : ms.length < fuel) :
    (ListenAndRespond T c fuel st).2.trace
        = st.trace ++ (loopEvents c ms ++ [.readMessage c.conn]) ∧
      spawns (ListenAndRespond T c fuel st).2.trace
        = spawns st.trace ++ ms.map (fun m => (c.handler, c, m)) ∧
      (spawns (ListenAndRespond T c fuel st).2.trace).length
        = (spawns st.trace).length + ms.length := by
  rw [ListenAndRespond_run T c ms st e s2 fuel hreads hfuel]
  simp [spawns_loopEvents, spawns]

/-- C1 at a concrete input: the simulated peer sends `[1, 2]` and `[3]` and
then closes; the loop spawns handler 7 on `[1, 2]` and then on `[3]`. -/
theorem ListenAndRespond_spawns_each_message_in_order_witness :
    ReadsThenFails Sim ((simWorld [[1, 2], [3]]).conns simConnection.conn) [[1, 2], [3]] .eof
        { inbox := [], readLimit := maxMessageSize, writeDeadline := 0, wire := [],
          closed := true } ∧
      [[1, 2], [3]].length < 3 ∧
      spawns (ListenAndRespond Sim simConnection 3 (simWorld [[1, 2], [3]])).2.trace
        = [(7, simConnection, [1, 2]), (7, simConnection, [3])] :=
  ⟨⟨rfl, rfl, rfl, rfl, rfl, rfl⟩, by decide,
    (ListenAndRespond_spawns_each_message_in_order Sim simConnection (simWorld [[1, 2], [3]])
      [[1, 2], [3]] .eof _ 3 ⟨rfl, rfl, rfl, rfl, rfl, rfl⟩ (by decide)).2.1⟩

/-- C2: `ListenAndRespond` returns only after a failed read, and what it
returns is the error of the first failed read, never nil: if it has returned
`r` within `fuel` iterations then the reads gave some messages `ms` without
error, the next read failed with `e`, `r` is `e`, the trace ends with that
failed read (no read and no handler invocation after it), and the transport
is in the state the failed read left.  Conversely, once a read fails the
function does return that error. -/
theorem ListenAndRespond_returns_first_read_error (T : Websocket σ ε ν ρ)
    (c : Connection η) (st : World σ η ν ρ) :
    (∀ (fuel : Nat) (r : Option ε), (ListenAndRespond T c fuel st).1 = some r →
      ∃ ms e s2, ms.length < fuel ∧ ReadsThenFails T (st.conns c.conn) ms e s2 ∧
        r = some e ∧
        (ListenAndRespond T c fuel st).2.trace
          = st.trace ++ (loopEvents c ms ++ [.readMessage c.conn]) ∧
        ((ListenAndRespond T c fuel st).2.trace.filter Event.isRead).length
          = (st.trace.filter Event.isRead).length + (ms.length + 1) ∧
        (ListenAndRespond T c fuel st).2.conns c.conn = s2) ∧
    (∀ (ms : List Bytes) (e : ε) (s2 : σ), ReadsThenFails T (st.conns c.conn) ms e s2 →
      ∀ fuel, ms.length < fuel → (ListenAndRespond T c fuel st).1 = some (some e)) := by
  constructor
  · intro fuel r h
    obtain ⟨ms, e, s2, hlen, hr, hreads⟩ := ListenAndRespond_returned T c fuel st r h
    refine ⟨ms, e, s2, hlen, hreads, hr, ?_⟩
    rw [ListenAndRespond_run T c ms st e s2 fuel hreads hlen]
    refine ⟨rfl, ?_, by simp⟩
    have hcount : ∀ xs : List Bytes,
        ((loopEvents c xs : List (Event η ν ρ)).filter Event.isRead).length = xs.length := by
      intro xs
      induction xs with
      | nil => rfl
      | cons x xs ih => simp [loopEvents, Event.isRead, ih]
    simp [hcount, Event.isRead]
  · intro ms e s2 hreads fuel hfuel
    rw [ListenAndRespond_run T c ms st e s2 fuel hreads hfuel]

/-- C2 at a concrete input: the simulated peer sends one message and closes;
the loop returns the end-of-stream error of the second read. -/
theorem ListenAndRespond_returns_first_read_error_witness :
    (ListenAndRespond Sim simConnection 5 (simWorld [[9]])).1 = some (some .eof) ∧
      ∃ ms e s2, ms.length < 5 ∧
        ReadsThenFails Sim ((simWorld [[9]]).conns simConnection.conn) ms e s2 ∧
        some SimError.eof = some e ∧
        (ListenAndRespond Sim simConnection 5 (simWorld [[9]])).2.trace
          = (simWorld [[9]]).trace ++ (loopEvents simConnection ms ++ [.readMessage 0]) ∧
        ((ListenAndRespond Sim simConnection 5 (simWorld [[9]])).2.trace.filter
            Event.isRead).length
          = ((simWorld [[9]]).trace.filter Event.isRead).length + (ms.length + 1) ∧
        (ListenAndRespond Sim simConnection 5 (simWorld [[9]])).2.conns simConnection.conn
          = s2 :=
  ⟨rfl, (ListenAndRespond_returns_first_read_error Sim simConnection (simWorld [[9]])).1 5
    (some .eof) rfl⟩

/-! ### The write path -/

theorem store_self {α : Type} (heap : Nat → α) (a : Nat) (v : α) (h : heap a = v) :
    store heap a v = heap := by
  funext b
  by_cases hb : b = a
  · subst hb; simp [store, h]
  · simp [store, hb]

/-- What `SendResponse` does when the mutex is free: the result is the one of
`WriteJSON`, called on the transport as `SetWriteDeadline` left it. -/
theorem SendResponse_run (T : Websocket σ ε ν ρ) (c : Connection η) (res : ν)
    (st : World σ η ν ρ) (hfree : st.mus c.mu = false) :
    SendResponse T c res st =
      some ((T.WriteJSON res (T.SetWriteDeadline (st.now + writeWait) (st.conns c.conn)).2).1,
        { st with
          conns := store st.conns c.conn
            (T.WriteJSON res (T.SetWriteDeadline (st.now + writeWait) (st.conns c.conn)).2).2,
          trace := st.trace ++ [.lock c.mu, .setWriteDeadline c.conn (st.now + writeWait),
            .writeJSON c.conn res, .unlock c.mu] }) := by
  simp [SendResponse, hfree, World.emit, World.setConn, World.setMu, store_self _ _ _ hfree]

/-- What `Close` does when the mutex is free. -/
theorem Close_run (T : Websocket σ ε ν ρ) (c : Connection η)
    (st : World σ η ν ρ) (hfree : st.mus c.mu = false) :
    Close T c st =
      some { st with
        conns := store st.conns c.conn (T.Close (st.conns c.conn)).2,
        trace := st.trace ++ [.lock c.mu, .close c.conn, .unlock c.mu] } := by
  simp [Close, hfree, World.emit, World.setConn, World.setMu, store_self _ _ _ hfree]

/-- C6: for every response value and every behaviour of the transport (so
for every outcome of the write), a `SendResponse` that finds the mutex free
returns, its first call is `c.mu.Lock()`, the two transport calls come next,
its last call is `c.mu.Unlock()`, and the mutex is free again when it returns
(every mutex is as before the call); a following `SendResponse` or `Close` on
the same connection is therefore not blocked. -/
theorem SendResponse_releases_lock (T : Websocket σ ε ν ρ) (c : Connection η) (res : ν)
    (st : World σ η ν ρ) (hfree : st.mus c.mu = false) :
    ∃ err st2, SendResponse T c res st = some (err, st2) ∧
      st2.trace = st.trace ++ [.lock c.mu, .setWriteDeadline c.conn (st.now + writeWait),
        .writeJSON c.conn res, .unlock c.mu] ∧
      st2.mus c.mu = false ∧ st2.mus = st.mus ∧
      (∀ res2, (SendResponse T c res2 st2).isSome = true) ∧
      (Close T c st2).isSome = true := by
  refine ⟨_, _, SendResponse_run T c res st hfree, rfl, hfree, rfl, ?_, ?_⟩
  · intro res2
    simp [SendResponse, hfree]
  · simp [Close, hfree]

/-- C6 at a concrete input: a send on the simulated connection, whose mutex
is free, leaves the mutex free. -/
theorem SendResponse_releases_lock_witness :
    (simWorld []).mus simConnection.mu = false ∧
      ∃ err st2, SendResponse Sim simConnection "pong" (simWorld []) = some (err, st2) ∧
        st2.trace = (simWorld []).trace ++ [.lock 0,
          .setWriteDeadline 0 ((simWorld []).now + writeWait), .writeJSON 0 "pong", .unlock 0] ∧
        st2.mus simConnection.mu = false ∧ st2.mus = (simWorld []).mus ∧
        (∀ res2, (SendResponse Sim simConnection res2 st2).isSome = true) ∧
        (Close Sim simConnection st2).isSome = true :=
  ⟨rfl, SendResponse_releases_lock Sim simConnection "pong" (simWorld []) rfl⟩

/-- C7: a `SendResponse` that finds the mutex free calls `WriteJSON` once and
returns what that call returned (nil when the write succeeded, its error
otherwise); it issues no `Close`, and the transport is left in the state the
write left it. -/
theorem SendResponse_single_write_attempt (T : Websocket σ ε ν ρ) (c : Connection η)
    (res : ν) (st : World σ η ν ρ) (hfree : st.mus c.mu = false) :
    ∃ st2 evs,
      SendResponse T c res st = some
        ((T.WriteJSON res (T.SetWriteDeadline (st.now + writeWait) (st.conns c.conn)).2).1,
          st2) ∧
      st2.conns c.conn
        = (T.WriteJSON res (T.SetWriteDeadline (st.now + writeWait) (st.conns c.conn)).2).2 ∧
      st2.trace = st.trace ++ evs ∧
      evs.filter Event.isWrite = [.writeJSON c.conn res] ∧
      evs.filter Event.isClose = [] := by
  refine ⟨_, _, SendResponse_run T c res st hfree, by simp, rfl, ?_, ?_⟩ <;>
    simp [Event.isWrite, Event.isClose]

/-- C7 at a concrete input: a send on a simulated connection that is already
closed returns the transport's error, after one write attempt and no
`Close`. -/
theorem SendResponse_single_write_attempt_witness :
    closedSimWorld.mus simConnection.mu = false ∧
      ∃ st2 evs,
        SendResponse Sim simConnection "pong" closedSimWorld
          = some (some SimError.closed, st2) ∧
        st2.conns simConnection.conn
          = { inbox := [], readLimit := 0, writeDeadline := 1700000010000000000, wire := [],
              closed := true } ∧
        st2.trace = [] ++ evs ∧
        evs.filter Event.isWrite = [.writeJSON 0 "pong"] ∧
        evs.filter Event.isClose = [] :=
  ⟨rfl, SendResponse_single_write_attempt Sim simConnection "pong" closedSimWorld rfl⟩

/-- C9: `writeWait` is 10 seconds (10,000,000,000 ns), and a `SendResponse`
that finds the mutex free calls `SetWriteDeadline` with the reading of the
clock plus `writeWait`, right after taking the lock and right before the one
`WriteJSON` call, which is followed by the unlock; the write is made on the
transport as that `SetWriteDeadline` call left it. -/
theorem SendResponse_deadline_before_write (T : Websocket σ ε ν ρ) (c : Connection η)
    (res : ν) (st : World σ η ν ρ) (hfree : st.mus c.mu = false) :
    writeWait = 10 * 1000000000 ∧
    ∃ err st2, SendResponse T c res st = some (err, st2) ∧
      st2.trace = st.trace ++ [.lock c.mu, .setWriteDeadline c.conn (st.now + 10000000000),
        .writeJSON c.conn res, .unlock c.mu] ∧
      st2.conns c.conn
        = (T.WriteJSON res (T.SetWriteDeadline (st.now + 10000000000) (st.conns c.conn)).2).2 := by
  refine ⟨rfl, _, _, SendResponse_run T c res st hfree, rfl, ?_⟩
  simp [writeWait, Second]

/-- C9 at a concrete input: on the simulated connection, with the clock at
1,700,000,000 s, the write deadline is 1,700,000,010 s. -/
theorem SendResponse_deadline_before_write_witness :
    (simWorld []).mus simConnection.mu = false ∧
      writeWait = 10 * 1000000000 ∧
      ∃ err st2, SendResponse Sim simConnection "pong" (simWorld []) = some (err, st2) ∧
        st2.trace = [.lock 0, .setWriteDeadline 0 1700000010000000000,
          .writeJSON 0 "pong", .unlock 0] ∧
        st2.conns simConnection.conn
          = { inbox := [], readLimit := maxMessageSize, writeDeadline := 1700000010000000000,
              wire := ["pong"], closed := false } :=
  ⟨rfl, SendResponse_deadline_before_write Sim simConnection "pong" (simWorld []) rfl⟩

/-! ### Who closes the transport -/

/-- The effect of `fuel` iterations of the loop: only reads and handler
invocations are issued, and only the reads change the transport. -/
theorem ListenAndRespond_effect (T : Websocket σ ε ν ρ) (c : Connection η) :
    ∀ (fuel : Nat) (st : World σ η ν ρ),
      ∃ evs n, (ListenAndRespond T c fuel st).2.trace = st.trace ++ evs ∧
        (∀ e ∈ evs, e = .readMessage c.conn ∨ ∃ m, e = .go c.handler c m) ∧
        (evs.filter Event.isRead).length = n ∧ n ≤ fuel ∧
        (ListenAndRespond T c fuel st).2.conns c.conn = afterReads T n (st.conns c.conn) ∧
        (∀ a, a ≠ c.conn → (ListenAndRespond T c fuel st).2.conns a = st.conns a) ∧
        (ListenAndRespond T c fuel st).2.mus = st.mus := by
  intro fuel
  induction fuel with
  | zero =>
    intro st
    exact ⟨[], 0, by simp [ListenAndRespond], by simp, rfl, le_refl _, rfl,
      fun _ _ => rfl, rfl⟩
  | succ fuel ih =>
    intro st
    simp only [ListenAndRespond]
    cases herr : (T.ReadMessage (st.conns c.conn)).1.err with
    | some e =>
      refine ⟨[.readMessage c.conn], 1, rfl, by simp, by simp [Event.isRead], by omega,
        by simp [World.emit, World.setConn, afterReads], ?_, rfl⟩
      intro a ha
      simp [World.emit, World.setConn, store_other _ _ _ _ ha]
    | none =>
      obtain ⟨evs, n, htr, hev, hn, hle, hconn, hother, hmus⟩ :=
        ih (((st.setConn c.conn (T.ReadMessage (st.conns c.conn)).2).emit
          (.readMessage c.conn)).emit (.go c.handler c (T.ReadMessage (st.conns c.conn)).1.p))
      refine ⟨.readMessage c.conn :: .go c.handler c (T.ReadMessage (st.conns c.conn)).1.p :: evs,
        n + 1, ?_, ?_, ?_, by omega, ?_, ?_, ?_⟩
      · simp only [htr]
        simp [World.emit, World.setConn]
      · intro e he
        simp only [List.mem_cons] at he
        rcases he with he | he | he
        · exact Or.inl he
        · exact Or.inr ⟨_, he⟩
        · exact hev e he
      · simp [Event.isRead, hn]
      · simp only [hconn]
        simp [World.emit, World.setConn, afterReads]
      · intro a ha
        rw [hother a ha]
        simp [World.emit, World.setConn, store_other _ _ _ _ ha]
      · rw [hmus]
        rfl

/-- C8: `ListenAndRespond` never closes the transport.  For every number of
iterations and every behaviour of the reads, the failing one included, the
calls the loop adds to the trace are reads of `c.conn` and handler
invocations only, none of them a `Close`; the state of its transport is the
one that the reads it made (`n` of them) left, every other transport and
every mutex is untouched.  `NewConnection` and `SendResponse` issue no
`Close` either; `Close` (on a free mutex) issues exactly one. -/
theorem ListenAndRespond_never_closes (T : Websocket σ ε ν ρ) (c : Connection η)
    (fuel : Nat) (st : World σ η ν ρ) :
    (∃ evs n, (ListenAndRespond T c fuel st).2.trace = st.trace ++ evs ∧
        evs.filter Event.isClose = [] ∧
        (∀ e ∈ evs, e = .readMessage c.conn ∨ ∃ m, e = .go c.handler c m) ∧
        (evs.filter Event.isRead).length = n ∧ n ≤ fuel ∧
        (ListenAndRespond T c fuel st).2.conns c.conn = afterReads T n (st.conns c.conn) ∧
        (∀ a, a ≠ c.conn → (ListenAndRespond T c fuel st).2.conns a = st.conns a) ∧
        (ListenAndRespond T c fuel st).2.mus = st.mus) ∧
    (∀ (w : ρ) (r : Request) (handler : η), ∃ evs,
        (NewConnection T w r handler st).2.trace = st.trace ++ evs ∧
        evs.filter Event.isClose = []) ∧
    (∀ (res : ν) (out : Option ε × World σ η ν ρ), SendResponse T c res st = some out →
        ∃ evs, out.2.trace = st.trace ++ evs ∧ evs.filter Event.isClose = []) ∧
    (∀ st2, Close T c st = some st2 →
        ∃ evs, st2.trace = st.trace ++ evs ∧ evs.filter Event.isClose = [.close c.conn] ∧
          st2.conns c.conn = (T.Close (st.conns c.conn)).2) := by
  refine ⟨?_, ?_, ?_, ?_⟩
  · obtain ⟨evs, n, htr, hev, hn, hle, hconn, hother, hmus⟩ :=
      ListenAndRespond_effect T c fuel st
    refine ⟨evs, n, htr, ?_, hev, hn, hle, hconn, hother, hmus⟩
    rw [List.filter_eq_nil_iff]
    intro e he
    rcases hev e he with h | ⟨m, h⟩ <;> simp [h, Event.isClose]
  · intro w r handler
    simp only [NewConnection]
    cases (T.Upgrade w r (responseHeaderOf r)).err with
    | some e => exact ⟨[.upgrade w r (responseHeaderOf r)], rfl, by simp [Event.isClose]⟩
    | none =>
      exact ⟨[.upgrade w r (responseHeaderOf r), .setReadLimit st.nextConn maxMessageSize],
        by simp [World.emit, World.setConn, World.setMu], by simp [Event.isClose]⟩
  · intro res out h
    by_cases hfree : st.mus c.mu = false
    · rw [SendResponse_run T c res st hfree] at h
      simp only [Option.some.injEq] at h
      subst h
      exact ⟨_, rfl, by simp [Event.isClose]⟩
    · simp [SendResponse, hfree] at h
  · intro st2 h
    by_cases hfree : st.mus c.mu = false
    · rw [Close_run T c st hfree] at h
      simp only [Option.some.injEq] at h
      subst h
      exact ⟨_, rfl, by simp [Event.isClose], by simp⟩
    · simp [Close, hfree] at h

/-- C8 at a concrete input: the loop on the simulated connection, whose peer
sends one message and closes. -/
theorem ListenAndRespond_never_closes_witness :
    ∃ evs n, (ListenAndRespond Sim simConnection 5 (simWorld [[9]])).2.trace = [] ++ evs ∧
      evs.filter Event.isClose = [] ∧
      (∀ e ∈ evs, e = .readMessage 0 ∨ ∃ m, e = .go 7 simConnection m) ∧
      (evs.filter Event.isRead).length = n ∧ n ≤ 5 ∧
      (ListenAndRespond Sim simConnection 5 (simWorld [[9]])).2.conns simConnection.conn
        = afterReads Sim n ((simWorld [[9]]).conns simConnection.conn) ∧
      (∀ a, a ≠ simConnection.conn →
        (ListenAndRespond Sim simConnection 5 (simWorld [[9]])).2.conns a
          = (simWorld [[9]]).conns a) ∧
      (ListenAndRespond Sim simConnection 5 (simWorld [[9]])).2.mus = (simWorld [[9]]).mus :=
  (ListenAndRespond_never_closes Sim simConnection 5 (simWorld [[9]])).1

/-! ### Construction -/

/-- What `NewConnection` does when the upgrade fails. -/
theorem NewConnection_failure (T : Websocket σ ε ν ρ) (w : ρ) (r : Request) (handler : η)
    (st : World σ η ν ρ) (e : ε) (h : (T.Upgrade w r (responseHeaderOf r)).err = some e) :
    NewConnection T w r handler st
      = ((none, some e), st.emit (.upgrade w r (responseHeaderOf r))) := by
  simp [NewConnection, h]

/-- What `NewConnection` does when the upgrade succeeds. -/
theorem NewConnection_success (T : Websocket σ ε ν ρ) (w : ρ) (r : Request) (handler : η)
    (st : World σ η ν ρ) (h : (T.Upgrade w r (responseHeaderOf r)).err = none) :
    NewConnection T w r handler st
      = ((some { conn := st.nextConn, mu := st.nextMu, handler := handler }, none),
          { conns := store st.conns st.nextConn
              (T.SetReadLimit maxMessageSize (T.Upgrade w r (responseHeaderOf r)).conn),
            mus := store st.mus st.nextMu false,
            nextConn := st.nextConn + 1,
            nextMu := st.nextMu + 1,
            now := st.now,
            trace := st.trace ++ [.upgrade w r (responseHeaderOf r),
              .setReadLimit st.nextConn maxMessageSize] }) := by
  simp [NewConnection, h, World.emit, World.setConn, World.setMu]

/-- C3: `NewConnection` reads the request's `Sec-WebSocket-Protocol` header
with `r.Header.Get`, that is the first value stored under the canonical key
`Sec-Websocket-Protocol`.  Its first call is the upgrade, made once; when that
value is present and not empty the response header it passes holds the single
entry `Sec-WebSocket-Protocol` with exactly that value, and when the header is
absent or its value is empty the response header it passes is nil. -/
theorem NewConnection_echoes_subprotocol (T : Websocket σ ε ν ρ) (w : ρ) (r : Request)
    (handler : η) (st : World σ η ν ρ) :
    r.Header.Get "Sec-WebSocket-Protocol"
        = (r.Header.index "Sec-Websocket-Protocol").headD "" ∧
    (∃ hdr evs, (NewConnection T w r handler st).2.trace = st.trace ++ .upgrade w r hdr :: evs ∧
      (∀ w2 r2 hdr2, Event.upgrade w2 r2 hdr2 ∉ evs) ∧
      (∀ v rest, r.Header.index "Sec-Websocket-Protocol" = v :: rest → v ≠ "" →
        hdr = some [("Sec-WebSocket-Protocol", [v])] ∧
        ∃ h, hdr = some h ∧ Header.index h "Sec-WebSocket-Protocol" = [v]) ∧
      (r.Header.index "Sec-Websocket-Protocol" = [] → hdr = none) ∧
      (∀ rest, r.Header.index "Sec-Websocket-Protocol" = "" :: rest → hdr = none)) := by
  have hget : r.Header.Get "Sec-WebSocket-Protocol"
      = (r.Header.index "Sec-Websocket-Protocol").headD "" := by
    have hk : CanonicalMIMEHeaderKey "Sec-WebSocket-Protocol" = "Sec-Websocket-Protocol" := by
      decide
    unfold Header.Get
    rw [hk]
    cases r.Header.index "Sec-Websocket-Protocol" <;> rfl
  refine ⟨hget, responseHeaderOf r, ?_⟩
  have htrace : ∃ evs, (NewConnection T w r handler st).2.trace
      = st.trace ++ .upgrade w r (responseHeaderOf r) :: evs ∧
      (∀ w2 r2 hdr2, Event.upgrade w2 r2 hdr2 ∉ evs) := by
    cases herr : (T.Upgrade w r (responseHeaderOf r)).err with
    | some e =>
      rw [NewConnection_failure T w r handler st e herr]
      exact ⟨[], rfl, by simp⟩
    | none =>
      rw [NewConnection_success T w r handler st herr]
      exact ⟨[.setReadLimit st.nextConn maxMessageSize], rfl, by simp⟩
  obtain ⟨evs, htr, hno⟩ := htrace
  refine ⟨evs, htr, hno, ?_, ?_, ?_⟩
  · intro v rest hv hne
    have hp : r.Header.Get "Sec-WebSocket-Protocol" = v := by rw [hget, hv]; rfl
    have hh : responseHeaderOf r = some [("Sec-WebSocket-Protocol", [v])] := by
      simp [responseHeaderOf, hp, hne]
    exact ⟨hh, _, hh, by simp [Header.index]⟩
  · intro hv
    have hp : r.Header.Get "Sec-WebSocket-Protocol" = "" := by rw [hget, hv]; rfl
    simp [responseHeaderOf, hp]
  · intro rest hv
    have hp : r.Header.Get "Sec-WebSocket-Protocol" = "" := by rw [hget, hv]; rfl
    simp [responseHeaderOf, hp]

/-- C3 at a concrete input: the request asks for `veldt`, and the upgrade is
called with the response header `Sec-WebSocket-Protocol: veldt`. -/
theorem NewConnection_echoes_subprotocol_witness :
    upgradeRequest.Header.index "Sec-Websocket-Protocol" = ["veldt"] ∧ "veldt" ≠ "" ∧
      (NewConnection Sim [[1]] upgradeRequest 7 emptyWorld).2.trace
        = [.upgrade [[1]] upgradeRequest (some [("Sec-WebSocket-Protocol", ["veldt"])]),
            .setReadLimit 0 65536] ∧
      ∃ hdr evs, (NewConnection Sim [[1]] upgradeRequest 7 emptyWorld).2.trace
          = emptyWorld.trace ++ .upgrade [[1]] upgradeRequest hdr :: evs ∧
        (∀ w2 r2 hdr2, Event.upgrade w2 r2 hdr2 ∉ evs) ∧
        (∀ v rest, upgradeRequest.Header.index "Sec-Websocket-Protocol" = v :: rest → v ≠ "" →
          hdr = some [("Sec-WebSocket-Protocol", [v])] ∧
          ∃ h, hdr = some h ∧ Header.index h "Sec-WebSocket-Protocol" = [v]) ∧
        (upgradeRequest.Header.index "Sec-Websocket-Protocol" = [] → hdr = none) ∧
        (∀ rest, upgradeRequest.Header.index "Sec-Websocket-Protocol" = "" :: rest →
          hdr = none) :=
  ⟨by decide, by decide, by decide,
    (NewConnection_echoes_subprotocol Sim [[1]] upgradeRequest 7 emptyWorld).2⟩

/-- C4: `NewConnection` returns a non-nil error exactly when the upgrade
returns one.  In that case the error returned is the upgrade's, the
`*Connection` is nil, and nothing but the upgrade call has happened (no
transport or mutex is allocated, no read limit is set).  When the upgrade
returns no error, the error returned is nil and the connection holds the
upgraded transport (with the read limit set), the handler given, and a mutex
that is new (at an address not allocated before, and allocated now) and
unlocked; no older mutex is touched. -/
theorem NewConnection_error_iff_upgrade_fails (T : Websocket σ ε ν ρ) (w : ρ) (r : Request)
    (handler : η) (st : World σ η ν ρ) :
    ((NewConnection T w r handler st).1.2 ≠ none
        ↔ (T.Upgrade w r (responseHeaderOf r)).err ≠ none) ∧
    (∀ e, (T.Upgrade w r (responseHeaderOf r)).err = some e →
      (NewConnection T w r handler st).1 = (none, some e) ∧
      (NewConnection T w r handler st).2 = st.emit (.upgrade w r (responseHeaderOf r))) ∧
    ((T.Upgrade w r (responseHeaderOf r)).err = none →
      ∃ c, (NewConnection T w r handler st).1 = (some c, none) ∧
        c.handler = handler ∧
        c.conn = st.nextConn ∧
        (NewConnection T w r handler st).2.conns c.conn
          = T.SetReadLimit maxMessageSize (T.Upgrade w r (responseHeaderOf r)).conn ∧
        c.mu = st.nextMu ∧
        (NewConnection T w r handler st).2.nextMu = c.mu + 1 ∧
        (NewConnection T w r handler st).2.mus c.mu = false ∧
        (∀ a, a ≠ c.mu → (NewConnection T w r handler st).2.mus a = st.mus a)) := by
  cases herr : (T.Upgrade w r (responseHeaderOf r)).err with
  | some e =>
    rw [NewConnection_failure T w r handler st e herr]
    simp
  | none =>
    rw [NewConnection_success T w r handler st herr]
    refine ⟨by simp, by simp, fun _ => ⟨_, rfl, rfl, rfl, by simp, rfl, rfl, by simp, ?_⟩⟩
    intro a ha
    exact store_other _ _ _ _ ha

/-- C4 at a concrete input: a request that is not an upgrade request gives
the handshake error and no connection; an upgrade request gives a connection
with handler 7, transport 0 and the new, unlocked mutex 0. -/
theorem NewConnection_error_iff_upgrade_fails_witness :
    (Sim.Upgrade [] badRequest (responseHeaderOf badRequest)).err = some .handshake ∧
      (NewConnection Sim [] badRequest 7 emptyWorld).1 = (none, some SimError.handshake) ∧
      (NewConnection Sim [] badRequest 7 emptyWorld).2
        = emptyWorld.emit (.upgrade [] badRequest (responseHeaderOf badRequest)) :=
  ⟨by decide,
    (NewConnection_error_iff_upgrade_fails Sim [] badRequest 7 emptyWorld).2.1 .handshake
      (by decide)⟩

/-! ### The read limit -/

/-- A loop that is still running after `k` iterations goes on from the world
it has reached. -/
theorem ListenAndRespond_continue (T : Websocket σ ε ν ρ) (c : Connection η) :
    ∀ (k : Nat) (st stk : World σ η ν ρ) (j : Nat), ListenAndRespond T c k st = (none, stk) →
      ListenAndRespond T c (k + j) st = ListenAndRespond T c j stk := by
  intro k
  induction k with
  | zero =>
    intro st stk j h
    simp only [ListenAndRespond, Prod.mk.injEq, true_and] at h
    subst h
    simp
  | succ k ih =>
    intro st stk j h
    have hj : k + 1 + j = (k + j) + 1 := by omega
    rw [hj]
    simp only [ListenAndRespond] at h ⊢
    cases herr : (T.ReadMessage (st.conns c.conn)).1.err with
    | some e => rw [herr] at h; simp at h
    | none =>
      rw [herr] at h
      exact ih _ _ j h

theorem afterReads_limit (T : Websocket σ ε ν ρ) (limit : σ → Int)
    (hkeep : ∀ s, limit (T.ReadMessage s).2 = limit s) :
    ∀ (n : Nat) (s : σ), limit (afterReads T n s) = limit s := by
  intro n
  induction n with
  | zero => intro s; rfl
  | succ n ih => intro s; rw [afterReads, ih, hkeep]

/-- The simulated transport keeps the read-limit contract. -/
theorem Sim_readLimitContract :
    ReadLimitContract Sim SimConn.readLimit simPending SimError.readLimit where
  set_limit := fun _ _ => rfl
  read_keeps_limit := by
    intro s
    simp only [Sim]
    split
    · rfl
    · split
      · rfl
      · split <;> rfl
  too_long := by
    intro s m hp h0 hlt
    simp only [simPending] at hp
    split at hp
    · simp at hp
    · rename_i hclosed
      cases hin : s.inbox with
      | nil => simp [hin] at hp
      | cons x rest =>
        simp only [hin, List.head?_cons, Option.some.injEq] at hp
        subst hp
        simp [Sim, hclosed, hin, h0, hlt]
  within := by
    intro s m hp hle
    simp only [simPending] at hp
    split at hp
    · simp at hp
    · rename_i hclosed
      cases hin : s.inbox with
      | nil => simp [hin] at hp
      | cons x rest =>
        simp only [hin, List.head?_cons, Option.some.injEq] at hp
        subst hp
        have hnot : ¬ (s.readLimit < (x.length : Int)) := by omega
        simp [Sim, hclosed, hin, hnot]

/-- C5: `maxMessageSize` is 65,536, and every connection `NewConnection`
returns has had `SetReadLimit(65536)` called on its transport.  For a
transport that keeps the library's read-limit contract, the limit configured
on the connection's transport is therefore 65,536, it still is after any
number `k` of messages handled by `ListenAndRespond`, and when the next
message of the peer is longer than 65,536 bytes the loop returns the
size-limit error at that read, without a handler invocation for the message;
a message of exactly 65,536 bytes does not make the loop return the size-limit
error. -/
theorem NewConnection_read_limit (T : Websocket σ ε ν ρ) (limit : σ → Int)
    (pending : σ → Option Bytes) (ErrReadLimit : ε)
    (hT : ReadLimitContract T limit pending ErrReadLimit)
    (w : ρ) (r : Request) (handler : η) (st st1 : World σ η ν ρ) (c : Connection η)
    (hnew : NewConnection T w r handler st = ((some c, none), st1)) :
    maxMessageSize = 65536 ∧
    (∃ up, st1.trace = st.trace ++ [up, .setReadLimit c.conn 65536]) ∧
    limit (st1.conns c.conn) = 65536 ∧
    ∀ (k : Nat) (stk : World σ η ν ρ), ListenAndRespond T c k st1 = (none, stk) →
      limit (stk.conns c.conn) = 65536 ∧
      ∀ m, pending (stk.conns c.conn) = some m →
        ((65536 : Int) < (m.length : Int) →
          ListenAndRespond T c (k + 1) st1
            = (some (some ErrReadLimit),
                (stk.setConn c.conn (T.ReadMessage (stk.conns c.conn)).2).emit
                  (.readMessage c.conn)) ∧
          spawns (ListenAndRespond T c (k + 1) st1).2.trace = spawns stk.trace) ∧
        (m.length = 65536 →
          (ListenAndRespond T c (k + 1) st1).1 ≠ some (some ErrReadLimit)) := by
  have hmax : maxMessageSize = 65536 := by decide
  cases herr : (T.Upgrade w r (responseHeaderOf r)).err with
  | some e =>
    rw [NewConnection_failure T w r handler st e herr] at hnew
    simp at hnew
  | none =>
    rw [NewConnection_success T w r handler st herr] at hnew
    simp only [Prod.mk.injEq, Option.some.injEq, true_and, and_true] at hnew
    obtain ⟨hc, hst⟩ := hnew
    subst hc
    subst hst
    have hlim : limit (store st.conns st.nextConn
        (T.SetReadLimit maxMessageSize (T.Upgrade w r (responseHeaderOf r)).conn) st.nextConn)
        = 65536 := by
      rw [store_same, hT.set_limit, hmax]
    refine ⟨hmax, ⟨.upgrade w r (responseHeaderOf r), by simp [hmax]⟩, hlim, ?_⟩
    intro k stk hk
    have hlimk : limit (stk.conns st.nextConn) = 65536 := by
      obtain ⟨evs, n, _, _, _, _, hconn, _, _⟩ := ListenAndRespond_effect T
        { conn := st.nextConn, mu := st.nextMu, handler := handler } k _
      rw [hk] at hconn
      simp only at hconn
      rw [hconn, afterReads_limit T limit hT.read_keeps_limit]
      exact hlim
    refine ⟨hlimk, ?_⟩
    intro m hm
    have hstep := ListenAndRespond_continue T
      { conn := st.nextConn, mu := st.nextMu, handler := handler } k _ stk 1 hk
    constructor
    · intro hlong
      have hfail : (T.ReadMessage (stk.conns st.nextConn)).1.err = some ErrReadLimit :=
        hT.too_long _ m hm (by rw [hlimk]; decide) (by rw [hlimk]; exact hlong)
      rw [hstep]
      simp [ListenAndRespond, hfail, World.emit, World.setConn, spawns]
    · intro hlen
      have hok : (T.ReadMessage (stk.conns st.nextConn)).1.err ≠ some ErrReadLimit :=
        hT.within _ m hm (by rw [hlimk, hlen]; decide)
      rw [hstep]
      simp only [ListenAndRespond]
      cases hrd : (T.ReadMessage (stk.conns st.nextConn)).1.err with
      | some e =>
        rw [hrd] at hok
        simpa using hok
      | none => simp

/-- C5 at a concrete input: the connection made from an upgrade request on
the simulated transport has the read limit 65,536. -/
theorem NewConnection_read_limit_witness :
    ReadLimitContract Sim SimConn.readLimit simPending SimError.readLimit ∧
      NewConnection Sim [[1]] upgradeRequest 7 emptyWorld
        = ((some { conn := 0, mu := 0, handler := 7 }, none),
            (NewConnection Sim [[1]] upgradeRequest 7 emptyWorld).2) ∧
      ((NewConnection Sim [[1]] upgradeRequest 7 emptyWorld).2.conns 0).readLimit = 65536 :=
  ⟨Sim_readLimitContract, rfl,
    (NewConnection_read_limit Sim SimConn.readLimit simPending SimError.readLimit
      Sim_readLimitContract [[1]] upgradeRequest 7 emptyWorld _ { conn := 0, mu := 0, handler := 7 }
      rfl).2.2.1⟩

/-! ### Goroutines on one connection -/

theorem program_length_ge (cl : Call ν) : 2 ≤ (program cl).length := by
  cases cl <;> simp [program]

theorem program_lock_iff (cl : Call ν) (k : Nat) :
    (program cl)[k]? = some .lock ↔ k = 0 := by
  cases cl <;> rcases k with _ | _ | _ | _ | _ | k <;> simp [program]

theorem program_unlock_iff (cl : Call ν) (k : Nat) :
    (program cl)[k]? = some .unlock ↔ k + 1 = (program cl).length := by
  cases cl <;> rcases k with _ | _ | _ | _ | _ | k <;> simp [program]

theorem program_lt (cl : Call ν) (k : Nat) (ins : Instr ν)
    (h : (program cl)[k]? = some ins) : k < (program cl).length := by
  obtain ⟨hk, _⟩ := List.getElem?_eq_some_iff.1 h
  exact hk

theorem exec_mus (T : Websocket σ ε ν ρ) (c : Connection η) (ins : Instr ν) (ret : Option ε)
    (st : World σ η ν ρ) (out : Option ε × World σ η ν ρ)
    (h : exec T c ins ret st = some out) :
    (ins = .lock → st.mus c.mu = false ∧ out.2.mus c.mu = true) ∧
    (ins = .unlock → out.2.mus c.mu = false) ∧
    (ins ≠ .lock → ins ≠ .unlock → out.2.mus = st.mus) := by
  cases ins with
  | lock =>
    simp only [exec] at h
    split at h
    · simp at h
    · rename_i hmu
      simp only [Option.some.injEq] at h
      subst h
      simp [World.emit, World.setMu] at hmu ⊢
      exact hmu
  | unlock =>
    simp only [exec, Option.some.injEq] at h
    subst h
    simp [World.emit, World.setMu]
  | setWriteDeadline =>
    simp only [exec, Option.some.injEq] at h
    subst h
    simp [World.emit, World.setConn]
  | writeBegin res =>
    simp only [exec, Option.some.injEq] at h
    subst h
    simp
  | writeEnd res =>
    simp only [exec, Option.some.injEq] at h
    subst h
    simp [World.emit, World.setConn]
  | closeBegin =>
    simp only [exec, Option.some.injEq] at h
    subst h
    simp
  | closeEnd =>
    simp only [exec, Option.some.injEq] at h
    subst h
    simp [World.emit, World.setConn]

theorem exec_isSome (T : Websocket σ ε ν ρ) (c : Connection η) (ins : Instr ν)
    (ret : Option ε) (st : World σ η ν ρ) (h : ins ≠ .lock ∨ st.mus c.mu = false) :
    (exec T c ins ret st).isSome = true := by
  cases ins with
  | lock =>
    rcases h with h | h
    · exact absurd rfl h
    · simp [exec, h]
  | unlock => rfl
  | setWriteDeadline => rfl
  | writeBegin res => rfl
  | writeEnd res => rfl
  | closeBegin => rfl
  | closeEnd => rfl

theorem step_some (T : Websocket σ ε ν ρ) (c : Connection η) (i : Nat)
    (p p2 : Pool σ ε η ν ρ) (h : step T c i p = some p2) :
    ∃ g ins out, p.goroutines[i]? = some g ∧ (program g.call)[g.pc]? = some ins ∧
      exec T c ins g.ret p.world = some out ∧
      p2.world = out.2 ∧ p2.goroutines = p.goroutines.set i (g.advance out.1) ∧
      p2.log = p.log ++ [(i, ins)] := by
  unfold step at h
  split at h
  · simp at h
  · rename_i g hg
    split at h
    · simp at h
    · rename_i ins hins
      split at h
      · simp at h
      · rename_i out hout
        simp only [Option.some.injEq] at h
        subst h
        exact ⟨g, ins, out, hg, hins, hout, rfl, rfl, rfl⟩

theorem step_isSome (T : Websocket σ ε ν ρ) (c : Connection η) (i : Nat)
    (p : Pool σ ε η ν ρ) (g : Goroutine ε ν) (ins : Instr ν)
    (hg : p.goroutines[i]? = some g) (hins : (program g.call)[g.pc]? = some ins)
    (h : ins ≠ .lock ∨ p.world.mus c.mu = false) :
    (step T c i p).isSome = true := by
  have hex := exec_isSome T c ins g.ret p.world h
  obtain ⟨out, hout⟩ := Option.isSome_iff_exists.1 hex
  simp [step, hg, hins, hout]

theorem executed_set_ne (p p2 : Pool σ ε η ν ρ) (i j : Nat) (g2 : Goroutine ε ν)
    (hgs : p2.goroutines = p.goroutines.set i g2) (h : j ≠ i) :
    executed p2 j = executed p j := by
  simp [executed, hgs, List.getElem?_set_ne (Ne.symm h)]

theorem executed_set_eq (p p2 : Pool σ ε η ν ρ) (i : Nat) (g : Goroutine ε ν) (ins : Instr ν)
    (r : Option ε) (hgs : p2.goroutines = p.goroutines.set i (g.advance r))
    (hg : p.goroutines[i]? = some g) (hins : (program g.call)[g.pc]? = some ins) :
    executed p2 i = executed p i ++ [(i, ins)] := by
  obtain ⟨hi, _⟩ := List.getElem?_eq_some_iff.1 hg
  simp [executed, hgs, List.getElem?_set_self hi, hg, List.take_succ, hins, Goroutine.advance]

theorem flatMap_executed_congr (p q : Pool σ ε η ν ρ) (l : List Nat)
    (h : ∀ j ∈ l, executed q j = executed p j) :
    l.flatMap (executed q) = l.flatMap (executed p) := by
  induction l with
  | nil => rfl
  | cons a l ih =>
    simp only [List.flatMap_cons]
    rw [h a (by simp), ih (fun j hj => h j (by simp [hj]))]

/-- A step of a goroutine keeps the invariant: the goroutine either took the
lock with nobody inside or was the one inside, and after the step it either
has returned (the step was its `Unlock`) or is the one inside. -/
theorem Serial_step_shape (T : Websocket σ ε ν ρ) (c : Connection η) (calls : List (Call ν))
    (i : Nat) (p p2 : Pool σ ε η ν ρ) (fin : List Nat) (cur : Option Nat)
    (hS : Serial c calls p fin cur) (h : step T c i p = some p2) :
    ∃ g ins out, p.goroutines[i]? = some g ∧ (program g.call)[g.pc]? = some ins ∧
      exec T c ins g.ret p.world = some out ∧ p2.world = out.2 ∧
      p2.goroutines = p.goroutines.set i (g.advance out.1) ∧ i ∉ fin ∧
      ((g.pc = 0 ∧ cur = none) ∨ (0 < g.pc ∧ cur = some i)) ∧
      ((g.pc + 1 = (program g.call).length ∧ ins = .unlock ∧
          Serial c calls p2 (fin ++ [i]) none) ∨
        (g.pc + 1 < (program g.call).length ∧ Serial c calls p2 fin (some i))) := by
  obtain ⟨g, ins, out, hg, hins, hout, hw, hgs, hlog⟩ := step_some T c i p p2 h
  obtain ⟨hlock, hunlock, hother⟩ := exec_mus T c ins g.ret p.world out hout
  have hi : i < p.goroutines.length := (List.getElem?_eq_some_iff.1 hg).1
  have hlt : g.pc < (program g.call).length := program_lt _ _ _ hins
  have hlen := program_length_ge g.call
  have hget_i : p2.goroutines[i]? = some (g.advance out.1) := by
    rw [hgs]
    exact List.getElem?_set_self hi
  have hget_ne : ∀ j, j ≠ i → p2.goroutines[j]? = p.goroutines[j]? := by
    intro j hj
    rw [hgs]
    exact List.getElem?_set_ne (Ne.symm hj)
  have hnotfin : i ∉ fin := by
    intro hf
    obtain ⟨g1, hg1, hret⟩ := (hS.fin_iff i).1 hf
    rw [hg] at hg1
    cases hg1
    simp only [Goroutine.returned, beq_iff_eq] at hret
    omega
  -- the goroutine that holds the lock, if any, is `i`
  have hcur : (g.pc = 0 ∧ cur = none) ∨ (0 < g.pc ∧ cur = some i) := by
    by_cases h0 : g.pc = 0
    · left
      refine ⟨h0, ?_⟩
      have hl : ins = .lock := by
        have := (program_lock_iff g.call g.pc).2 h0
        rw [hins] at this
        cases this
        rfl
      have hmu := (hlock hl).1
      rw [hS.mu_eq] at hmu
      cases cur with
      | none => rfl
      | some j => simp at hmu
    · right
      refine ⟨by omega, (hS.cur_iff i).2 ⟨g, hg, ?_⟩⟩
      simp only [Goroutine.inside, Bool.and_eq_true, decide_eq_true_eq]
      omega
  have hex_i : executed p2 i = executed p i ++ [(i, ins)] :=
    executed_set_eq p p2 i g ins out.1 hgs hg hins
  have hex_fin : fin.flatMap (executed p2) = fin.flatMap (executed p) := by
    apply flatMap_executed_congr
    intro j hj
    apply executed_set_ne p p2 i j _ hgs
    intro hji
    exact hnotfin (hji ▸ hj)
  have hold : p.log = fin.flatMap (executed p) ++ executed p i := by
    rw [hS.log_eq]
    rcases hcur with ⟨h0, hc⟩ | ⟨_, hc⟩
    · subst hc
      simp [executed, hg, h0]
    · subst hc
      simp
  have hnew : p2.log = (fin ++ [i]).flatMap (executed p2) := by
    rw [hlog, List.flatMap_append, hex_fin, hold, List.append_assoc]
    simp [hex_i]
  have hnodup : (fin ++ [i]).Nodup := by
    have hfin : fin.Nodup := (List.nodup_append.1 hS.nodup).1
    rw [List.nodup_append]
    refine ⟨hfin, by simp, ?_⟩
    intro a ha hb
    simp only [List.mem_singleton] at hb
    exact hnotfin (hb ▸ ha)
  have hcalls : p2.goroutines.map (fun g => g.call) = calls := by
    rw [← hS.calls_eq]
    apply List.ext_getElem?
    intro j
    by_cases hj : j = i
    · subst hj
      simp [hget_i, hg, Goroutine.advance]
    · simp [hget_ne j hj]
  have hpc : ∀ (j : Nat) (g1 : Goroutine ε ν), p2.goroutines[j]? = some g1 →
      g1.pc ≤ (program g1.call).length := by
    intro j g1 hg1
    by_cases hj : j = i
    · subst hj
      rw [hget_i] at hg1
      cases hg1
      exact hlt
    · rw [hget_ne j hj] at hg1
      exact hS.pc_le j g1 hg1
  have hnoother : ∀ j, j ≠ i → ¬ ∃ g1, p.goroutines[j]? = some g1 ∧ g1.inside = true := by
    intro j hj hin
    have hcj := (hS.cur_iff j).2 hin
    rcases hcur with ⟨_, hc⟩ | ⟨_, hc⟩
    · rw [hc] at hcj
      cases hcj
    · rw [hc] at hcj
      cases hcj
      exact hj rfl
  by_cases hend : g.pc + 1 = (program g.call).length
  · -- the step was the `Unlock`: goroutine `i` has returned
    have hu : ins = .unlock := by
      have := (program_unlock_iff g.call g.pc).2 hend
      rw [hins] at this
      cases this
      rfl
    refine ⟨g, ins, out, hg, hins, hout, hw, hgs, hnotfin, hcur, Or.inl ⟨hend, hu,
      ⟨hcalls, hpc, by simpa using hnodup, ?_, ?_, ?_, by simpa using hnew⟩⟩⟩
    · intro j
      by_cases hj : j = i
      · subst hj
        simp [hget_i, Goroutine.returned, Goroutine.advance, hend]
      · rw [hget_ne j hj, ← hS.fin_iff j]
        simp [hj]
    · intro j
      constructor
      · intro hc
        cases hc
      · rintro ⟨g1, hg1, hin⟩
        exfalso
        by_cases hj : j = i
        · subst hj
          rw [hget_i] at hg1
          cases hg1
          simp [Goroutine.inside, Goroutine.advance, hend] at hin
        · rw [hget_ne j hj] at hg1
          exact hnoother j hj ⟨g1, hg1, hin⟩
    · rw [hw]
      simpa using hunlock hu
  · -- goroutine `i` holds the lock after the step
    refine ⟨g, ins, out, hg, hins, hout, hw, hgs, hnotfin, hcur, Or.inr ⟨by omega,
      ⟨hcalls, hpc, by simpa using hnodup, ?_, ?_, ?_, by simpa using hnew⟩⟩⟩
    · intro j
      by_cases hj : j = i
      · subst hj
        simp [hget_i, Goroutine.returned, Goroutine.advance, hend, hnotfin]
      · rw [hget_ne j hj]
        exact hS.fin_iff j
    · intro j
      by_cases hj : j = i
      · subst hj
        simp only [true_iff]
        refine ⟨_, hget_i, ?_⟩
        simp only [Goroutine.inside, Goroutine.advance, Bool.and_eq_true, decide_eq_true_eq]
        omega
      · rw [hget_ne j hj]
        constructor
        · intro hc
          cases hc
          exact absurd rfl hj
        · intro hin
          exact absurd hin (hnoother j hj)
    · rw [hw]
      show out.2.mus c.mu = true
      rcases hcur with ⟨h0, _⟩ | ⟨hpos, hc⟩
      · have hl : ins = .lock := by
          have := (program_lock_iff g.call g.pc).2 h0
          rw [hins] at this
          cases this
          rfl
        exact (hlock hl).2
      · have hnl : ins ≠ .lock := by
          intro hl
          rw [hl] at hins
          have := (program_lock_iff g.call g.pc).1 hins
          omega
        have hnu : ins ≠ .unlock := by
          intro hu
          rw [hu] at hins
          exact hend ((program_unlock_iff g.call g.pc).1 hins)
        rw [hother hnl hnu, hS.mu_eq, hc]
        rfl

/-- A step of a goroutine keeps the invariant. -/
theorem Serial_step (T : Websocket σ ε ν ρ) (c : Connection η) (calls : List (Call ν))
    (i : Nat) (p p2 : Pool σ ε η ν ρ) (fin : List Nat) (cur : Option Nat)
    (hS : Serial c calls p fin cur) (h : step T c i p = some p2) :
    ∃ fin2 cur2, Serial c calls p2 fin2 cur2 := by
  obtain ⟨_, _, _, _, _, _, _, _, _, _, hshape⟩ := Serial_step_shape T c calls i p p2 fin cur hS h
  rcases hshape with ⟨_, _, h2⟩ | ⟨_, h2⟩
  · exact ⟨_, _, h2⟩
  · exact ⟨_, _, h2⟩

/-- A pool in which no call has begun, on a free mutex, has the invariant. -/
theorem Serial_start (c : Connection η) (st : World σ η ν ρ) (calls : List (Call ν))
    (hfree : st.mus c.mu = false) :
    Serial c calls (start st calls : Pool σ ε η ν ρ) [] none := by
  have hpc0 : ∀ (i : Nat) (g : Goroutine ε ν),
      (start st calls : Pool σ ε η ν ρ).goroutines[i]? = some g → g.pc = 0 := by
    intro i g hg
    simp only [start, List.getElem?_map, Option.map_eq_some'] at hg
    obtain ⟨cl, _, rfl⟩ := hg
    rfl
  refine ⟨?_, ?_, by simp, ?_, ?_, hfree, rfl⟩
  · simp [start, Function.comp_def]
  · intro i g hg
    rw [hpc0 i g hg]
    exact Nat.zero_le _
  · intro i
    simp only [List.not_mem_nil, false_iff, not_exists, not_and]
    intro g hg
    have h2 := program_length_ge g.call
    simp only [Goroutine.returned, hpc0 i g hg, beq_iff_eq]
    omega
  · intro i
    constructor
    · intro h
      cases h
    · rintro ⟨g, hg, hin⟩
      simp [Goroutine.inside, hpc0 i g hg] at hin

/-- Every schedule keeps the invariant. -/
theorem Serial_run (T : Websocket σ ε ν ρ) (c : Connection η) (calls : List (Call ν))
    (sched : List Choice) :
    ∀ (p : Pool σ ε η ν ρ) (fin : List Nat) (cur : Option Nat), Serial c calls p fin cur →
      ∃ fin2 cur2, Serial c calls (run T c sched p) fin2 cur2 := by
  induction sched with
  | nil => intro p fin cur hS; exact ⟨fin, cur, hS⟩
  | cons ch rest ih =>
    intro p fin cur hS
    cases ch with
    | goroutine i =>
      simp only [run]
      cases hstep : step T c i p with
      | none => exact ih p fin cur hS
      | some p2 =>
        obtain ⟨fin2, cur2, hS2⟩ := Serial_step T c calls i p p2 fin cur hS hstep
        exact ih p2 fin2 cur2 hS2
    | tick d =>
      simp only [run]
      exact ih _ fin cur
        ⟨hS.calls_eq, hS.pc_le, hS.nodup, hS.fin_iff, hS.cur_iff, hS.mu_eq, hS.log_eq⟩

theorem run_append (T : Websocket σ ε ν ρ) (c : Connection η) (s1 s2 : List Choice) :
    ∀ p : Pool σ ε η ν ρ, run T c (s1 ++ s2) p = run T c s2 (run T c s1 p) := by
  induction s1 with
  | nil => intro p; rfl
  | cons ch rest ih =>
    intro p
    cases ch <;> simp only [List.cons_append, run] <;> exact ih _

theorem sum_map_set {α : Type} (f : α → Nat) (b : α) :
    ∀ (l : List α) (i : Nat) (a : α), l[i]? = some a → f b + 1 = f a →
      ((l.set i b).map f).sum + 1 = (l.map f).sum := by
  intro l
  induction l with
  | nil => intro i a h; simp at h
  | cons x l ih =>
    intro i a h hf
    cases i with
    | zero =>
      simp only [List.getElem?_cons_zero, Option.some.injEq] at h
      subst h
      simp only [List.set_cons_zero, List.map_cons, List.sum_cons]
      omega
    | succ i =>
      simp only [List.getElem?_cons_succ] at h
      have := ih i a h hf
      simp only [List.set_cons_succ, List.map_cons, List.sum_cons]
      omega

/-- A step leaves one step less to make. -/
theorem remaining_step (T : Websocket σ ε ν ρ) (c : Connection η) (i : Nat)
    (p p2 : Pool σ ε η ν ρ) (h : step T c i p = some p2) :
    remaining p2 + 1 = remaining p := by
  obtain ⟨g, ins, out, hg, hins, _, _, hgs, _⟩ := step_some T c i p p2 h
  have hlt := program_lt _ _ _ hins
  unfold remaining
  rw [hgs]
  apply sum_map_set _ _ _ _ g hg
  simp only [Goroutine.advance]
  omega

/-- No deadlock: while a call has not returned, some goroutine can make a
step. -/
theorem Serial_progress (T : Websocket σ ε ν ρ) (c : Connection η) (calls : List (Call ν))
    (p : Pool σ ε η ν ρ) (fin : List Nat) (cur : Option Nat) (hS : Serial c calls p fin cur)
    (hsome : ∃ g ∈ p.goroutines, g.returned = false) :
    ∃ i, (step T c i p).isSome = true := by
  cases hc : cur with
  | some j =>
    obtain ⟨g, hg, hin⟩ := (hS.cur_iff j).1 hc
    simp only [Goroutine.inside, Bool.and_eq_true, decide_eq_true_eq] at hin
    have hins : (program g.call)[g.pc]? = some ((program g.call)[g.pc]) :=
      List.getElem?_eq_getElem hin.2
    refine ⟨j, step_isSome T c j p g _ hg hins (Or.inl ?_)⟩
    intro hl
    rw [hl] at hins
    have := (program_lock_iff g.call g.pc).1 hins
    omega
  | none =>
    obtain ⟨g, hmem, hret⟩ := hsome
    obtain ⟨i, hg⟩ := List.mem_iff_getElem?.1 hmem
    have hle := hS.pc_le i g hg
    have hne : g.pc ≠ (program g.call).length := by
      intro heq
      simp [Goroutine.returned, heq] at hret
    have hlt : g.pc < (program g.call).length := by omega
    have hins : (program g.call)[g.pc]? = some ((program g.call)[g.pc]) :=
      List.getElem?_eq_getElem hlt
    have hmu : p.world.mus c.mu = false := by
      rw [hS.mu_eq, hc]
      rfl
    exact ⟨i, step_isSome T c i p g _ hg hins (Or.inr hmu)⟩

/-- From any pool with the invariant, some schedule lets every call
return. -/
theorem Serial_complete (T : Websocket σ ε ν ρ) (c : Connection η) (calls : List (Call ν)) :
    ∀ (n : Nat) (p : Pool σ ε η ν ρ) (fin : List Nat) (cur : Option Nat),
      remaining p ≤ n → Serial c calls p fin cur →
      ∃ sched, ∀ g ∈ (run T c sched p).goroutines, g.returned = true := by
  intro n
  induction n with
  | zero =>
    intro p fin cur hn hS
    by_cases hall : ∀ g ∈ p.goroutines, g.returned = true
    · exact ⟨[], hall⟩
    · exfalso
      have hsome : ∃ g ∈ p.goroutines, g.returned = false := by
        simpa using hall
      obtain ⟨i, hi⟩ := Serial_progress T c calls p fin cur hS hsome
      obtain ⟨p2, hp2⟩ := Option.isSome_iff_exists.1 hi
      have := remaining_step T c i p p2 hp2
      omega
  | succ n ih =>
    intro p fin cur hn hS
    by_cases hall : ∀ g ∈ p.goroutines, g.returned = true
    · exact ⟨[], hall⟩
    · have hsome : ∃ g ∈ p.goroutines, g.returned = false := by
        simpa using hall
      obtain ⟨i, hi⟩ := Serial_progress T c calls p fin cur hS hsome
      obtain ⟨p2, hp2⟩ := Option.isSome_iff_exists.1 hi
      have hrem := remaining_step T c i p p2 hp2
      obtain ⟨fin2, cur2, hS2⟩ := Serial_step T c calls i p p2 fin cur hS hp2
      obtain ⟨sched, hsched⟩ := ih p2 fin2 cur2 (by omega) hS2
      refine ⟨.goroutine i :: sched, ?_⟩
      simp only [run, hp2, Option.getD_some]
      exact hsched

/-- The steps of a goroutine that has returned are all the steps of its
call. -/
theorem executed_returned (c : Connection η) (calls : List (Call ν)) (p : Pool σ ε η ν ρ)
    (fin : List Nat) (cur : Option Nat) (hS : Serial c calls p fin cur) (i : Nat)
    (hi : i ∈ fin) : executed p i = block calls i := by
  obtain ⟨g, hg, hret⟩ := (hS.fin_iff i).1 hi
  simp only [Goroutine.returned, beq_iff_eq] at hret
  have hcall : calls[i]? = some g.call := by
    rw [← hS.calls_eq]
    simp [hg]
  simp [executed, block, hg, hcall, hret]

/-! ### Goroutines against whole calls -/

theorem execs_append (T : Websocket σ ε ν ρ) (c : Connection η) (xs ys : List (Instr ν)) :
    ∀ (ret : Option ε) (st : World σ η ν ρ),
      execs T c (xs ++ ys) ret st
        = (execs T c xs ret st).bind (fun out => execs T c ys out.1 out.2) := by
  induction xs with
  | nil => intro ret st; rfl
  | cons x xs ih =>
    intro ret st
    simp only [List.cons_append, execs]
    cases exec T c x ret st with
    | none => rfl
    | some out => exact ih _ _

/-- No step changes the clock. -/
theorem exec_now (T : Websocket σ ε ν ρ) (c : Connection η) (ins : Instr ν) (ret : Option ε)
    (st : World σ η ν ρ) (out : Option ε × World σ η ν ρ)
    (h : exec T c ins ret st = some out) : out.2.now = st.now := by
  cases ins with
  | lock =>
    simp only [exec] at h
    split at h
    · simp at h
    · simp only [Option.some.injEq] at h
      subst h
      rfl
  | unlock => simp only [exec, Option.some.injEq] at h; subst h; rfl
  | setWriteDeadline => simp only [exec, Option.some.injEq] at h; subst h; rfl
  | writeBegin res => simp only [exec, Option.some.injEq] at h; subst h; rfl
  | writeEnd res => simp only [exec, Option.some.injEq] at h; subst h; rfl
  | closeBegin => simp only [exec, Option.some.injEq] at h; subst h; rfl
  | closeEnd => simp only [exec, Option.some.injEq] at h; subst h; rfl

/-- Only `SetWriteDeadline` reads the clock. -/
theorem exec_setNow (T : Websocket σ ε ν ρ) (c : Connection η) (ins : Instr ν)
    (ret : Option ε) (st : World σ η ν ρ) (out : Option ε × World σ η ν ρ) (t : Int)
    (hins : ins ≠ .setWriteDeadline ∨ t = st.now) (h : exec T c ins ret st = some out) :
    exec T c ins ret (st.setNow t) = some (out.1, out.2.setNow t) := by
  by_cases ht : t = st.now
  · have hnow := exec_now T c ins ret st out h
    subst ht
    have h1 : st.setNow st.now = st := rfl
    have h2 : out.2.setNow st.now = out.2 := by
      rw [← hnow]
      rfl
    rw [h1, h2]
    exact h
  · have hne : ins ≠ .setWriteDeadline := by
      rcases hins with h1 | h1
      · exact h1
      · exact absurd h1 ht
    cases ins with
    | lock =>
      simp only [exec] at h ⊢
      have hmu : (st.setNow t).mus c.mu = st.mus c.mu := rfl
      rw [hmu]
      split at h
      · simp at h
      · rename_i hfree
        simp only [Option.some.injEq] at h
        subst h
        simp only [hfree]
        rfl
    | unlock => simp only [exec, Option.some.injEq] at h ⊢; subst h; rfl
    | setWriteDeadline => exact absurd rfl hne
    | writeBegin res => simp only [exec, Option.some.injEq] at h ⊢; subst h; rfl
    | writeEnd res => simp only [exec, Option.some.injEq] at h ⊢; subst h; rfl
    | closeBegin => simp only [exec, Option.some.injEq] at h ⊢; subst h; rfl
    | closeEnd => simp only [exec, Option.some.injEq] at h ⊢; subst h; rfl

theorem execs_setNow (T : Websocket σ ε ν ρ) (c : Connection η) (t : Int)
    (xs : List (Instr ν)) (hxs : ∀ x ∈ xs, x ≠ .setWriteDeadline) :
    ∀ (ret : Option ε) (st : World σ η ν ρ) (out : Option ε × World σ η ν ρ),
      execs T c xs ret st = some out →
      execs T c xs ret (st.setNow t) = some (out.1, out.2.setNow t) := by
  induction xs with
  | nil =>
    intro ret st out h
    simp only [execs, Option.some.injEq] at h ⊢
    subst h
    rfl
  | cons x xs ih =>
    intro ret st out h
    simp only [execs] at h ⊢
    cases hx : exec T c x ret st with
    | none => rw [hx] at h; simp at h
    | some o =>
      rw [hx] at h
      rw [exec_setNow T c x ret st o t (Or.inl (hxs x (by simp))) hx]
      exact ih (fun y hy => hxs y (by simp [hy])) _ _ _ h

/-- The steps of `SendResponse`, made in a row, are `SendResponse`. -/
theorem execs_program_send (T : Websocket σ ε ν ρ) (c : Connection η) (res : ν)
    (st : World σ η ν ρ) :
    execs T c (program (.send res)) none st = SendResponse T c res st := by
  simp only [program, execs, exec, SendResponse]
  cases st.mus c.mu <;> rfl

/-- The steps of `Close`, made in a row, are `Close`. -/
theorem execs_program_close (T : Websocket σ ε ν ρ) (c : Connection η)
    (st : World σ η ν ρ) :
    execs T c (program (.close : Call ν)) none st
      = (Close T c st).map (fun st2 => ((none : Option ε), st2)) := by
  simp only [program, execs, exec, Close]
  cases st.mus c.mu <;> rfl

theorem callAt_eq_execs (T : Websocket σ ε ν ρ) (c : Connection η) (cl : Call ν) (t : Int)
    (st : World σ η ν ρ) :
    callAt T c (cl, t) st = execs T c (program cl) none (st.setNow t) := by
  cases cl with
  | send res => exact (execs_program_send T c res _).symm
  | close => exact (execs_program_close T c _).symm

theorem serial_snoc (T : Websocket σ ε ν ρ) (c : Connection η) (x : Call ν × Int)
    (r : Option ε) (w w2 : World σ η ν ρ) (xs : List (Call ν × Int)) :
    ∀ (st : World σ η ν ρ) (rs : List (Option ε)), serial T c xs st = some (rs, w) →
      callAt T c x w = some (r, w2) → serial T c (xs ++ [x]) st = some (rs ++ [r], w2) := by
  induction xs with
  | nil =>
    intro st rs h hx
    simp only [serial, Option.some.injEq, Prod.mk.injEq] at h
    obtain ⟨h1, h2⟩ := h
    subst h1
    subst h2
    simp [serial, hx]
  | cons y ys ih =>
    intro st rs h hx
    simp only [List.cons_append, serial] at h ⊢
    cases hy : callAt T c y st with
    | none => rw [hy] at h; simp at h
    | some o =>
      rw [hy] at h
      simp only at h ⊢
      cases hs : serial T c ys o.2 with
      | none => rw [hs] at h; simp at h
      | some os =>
        rw [hs] at h
        simp only [Option.some.injEq, Prod.mk.injEq] at h
        obtain ⟨h1, h2⟩ := h
        subst h1
        subst h2
        have hrec := ih o.2 os.1 hs hx
        simp only [List.append_eq, hrec, List.cons_append]

theorem program_deadline_prefix (cl : Call ν) (k : Nat)
    (h : (program cl)[k]? = some .setWriteDeadline) :
    ∀ x ∈ (program cl).take k, x ≠ .setWriteDeadline := by
  cases cl <;> rcases k with _ | _ | _ | _ | _ | k <;> simp [program] at h ⊢

/-- The calls one whole call adds to the trace. -/
theorem callAt_trace (T : Websocket σ ε ν ρ) (c : Connection η) (x : Call ν × Int)
    (st : World σ η ν ρ) (out : Option ε × World σ η ν ρ) (h : callAt T c x st = some out) :
    out.2.trace = st.trace ++ callEvents c x := by
  obtain ⟨cl, t⟩ := x
  by_cases hfree : (st.setNow t).mus c.mu = false
  · cases cl with
    | send res =>
      simp only [callAt] at h
      rw [SendResponse_run T c res _ hfree] at h
      simp only [Option.some.injEq] at h
      subst h
      rfl
    | close =>
      simp only [callAt] at h
      rw [Close_run T c _ hfree] at h
      simp only [Option.map_some', Option.some.injEq] at h
      subst h
      rfl
  · cases cl with
    | send res => simp [callAt, SendResponse, hfree] at h
    | close => simp [callAt, Close, hfree] at h

/-- The trace after whole calls made one after the other. -/
theorem serial_trace (T : Websocket σ ε ν ρ) (c : Connection η) (xs : List (Call ν × Int)) :
    ∀ (st w : World σ η ν ρ) (rs : List (Option ε)), serial T c xs st = some (rs, w) →
      w.trace = st.trace ++ xs.flatMap (callEvents c) := by
  induction xs with
  | nil =>
    intro st w rs h
    simp only [serial, Option.some.injEq, Prod.mk.injEq] at h
    rw [← h.2]
    simp
  | cons y ys ih =>
    intro st w rs h
    simp only [serial] at h
    cases hy : callAt T c y st with
    | none => rw [hy] at h; simp at h
    | some o =>
      rw [hy] at h
      simp only at h
      cases hs : serial T c ys o.2 with
      | none => rw [hs] at h; simp at h
      | some os =>
        rw [hs] at h
        simp only [Option.some.injEq, Prod.mk.injEq] at h
        obtain ⟨_, h2⟩ := h
        subst h2
        rw [ih o.2 os.2 os.1 hs, callAt_trace T c y st o hy]
        simp

/-- One write is issued per `SendResponse` among whole calls. -/
theorem callEvents_writes (c : Connection η) (xs : List (Call ν × Int)) :
    (xs.flatMap (callEvents c : Call ν × Int → List (Event η ν ρ))).countP Event.isWrite
      = (xs.map (fun x => x.1)).countP Call.isSend := by
  induction xs with
  | nil => rfl
  | cons x xs ih =>
    obtain ⟨cl, t⟩ := x
    cases cl <;>
      simp [callEvents, Event.isWrite, Call.isSend, List.countP_cons, ih]

/-- A step of a goroutine keeps the world of the pool equal to whole calls
followed by the steps of the goroutine inside. -/
theorem Replayed_step (T : Websocket σ ε ν ρ) (c : Connection η) (st : World σ η ν ρ)
    (calls : List (Call ν)) (i : Nat) (p p2 : Pool σ ε η ν ρ) (fin : List Nat)
    (cur : Option Nat) (sc : List (Call ν × Int)) (rs : List (Option ε)) (w : World σ η ν ρ)
    (hS : Serial c calls p fin cur) (hR : Replayed T c st calls p fin cur sc rs w)
    (h : step T c i p = some p2) :
    ∃ fin2 cur2 sc2 rs2 w2, Serial c calls p2 fin2 cur2 ∧
      Replayed T c st calls p2 fin2 cur2 sc2 rs2 w2 := by
  obtain ⟨g, ins, out, hg, hins, hout, hw, hgs, hnotfin, hcur, hshape⟩ :=
    Serial_step_shape T c calls i p p2 fin cur hS h
  have hi : i < p.goroutines.length := (List.getElem?_eq_some_iff.1 hg).1
  have hget_i : p2.goroutines[i]? = some (g.advance out.1) := by
    rw [hgs]
    exact List.getElem?_set_self hi
  have hget_ne : ∀ j, j ≠ i → p2.goroutines[j]? = p.goroutines[j]? := by
    intro j hj
    rw [hgs]
    exact List.getElem?_set_ne (Ne.symm hj)
  have hrets : fin.map (retOf p2) = fin.map (retOf p) := by
    apply List.map_congr_left
    intro j hj
    have hji : j ≠ i := fun hji => hnotfin (hji ▸ hj)
    simp only [retOf, hget_ne j hji]
  have hret_i : retOf p2 i = out.1 := by
    simp [retOf, hget_i, Goroutine.advance]
  have hfresh2 : ∀ (j : Nat) (g1 : Goroutine ε ν), p2.goroutines[j]? = some g1 →
      g1.pc = 0 → g1.ret = none := by
    intro j g1 hg1 h0
    by_cases hj : j = i
    · subst hj
      rw [hget_i] at hg1
      cases hg1
      simp [Goroutine.advance] at h0
    · rw [hget_ne j hj] at hg1
      exact hR.fresh j g1 hg1 h0
  -- the steps goroutine `i` had made, replayed after the whole calls
  have hpre : ∃ t, execs T c ((program g.call).take g.pc) none (w.setNow t)
        = some (g.ret, p.world.setNow t) ∧
      (ins ≠ .setWriteDeadline ∨ t = p.world.now) := by
    rcases hcur with ⟨h0, hc⟩ | ⟨_, hc⟩
    · refine ⟨p.world.now, ?_, Or.inr rfl⟩
      have hidle := hR.idle hc
      have hworld : p.world.setNow p.world.now = w.setNow p.world.now := by
        rw [← hidle]
        rfl
      rw [h0, hR.fresh i g hg h0, hworld]
      rfl
    · obtain ⟨g0, t, o, hg0, hex, hret, hworld⟩ := hR.busy i hc
      rw [hg] at hg0
      cases hg0
      by_cases hswd : ins = .setWriteDeadline
      · refine ⟨p.world.now, ?_, Or.inr rfl⟩
        have hno := program_deadline_prefix g.call g.pc (hswd ▸ hins)
        have h2 := execs_setNow T c p.world.now _ hno none (w.setNow t) o hex
        have h3 : (w.setNow t).setNow p.world.now = w.setNow p.world.now := rfl
        rw [h3] at h2
        rw [h2, hret, ← hworld]
        rfl
      · refine ⟨t, ?_, Or.inl hswd⟩
        rw [hex, ← hret, hworld]
  obtain ⟨t, hpre, ht⟩ := hpre
  have hstep1 : exec T c ins g.ret (p.world.setNow t) = some (out.1, out.2.setNow t) :=
    exec_setNow T c ins g.ret p.world out t ht hout
  have hnext : execs T c ((program g.call).take (g.pc + 1)) none (w.setNow t)
      = some (out.1, out.2.setNow t) := by
    rw [List.take_succ, hins, execs_append, hpre]
    simp only [Option.toList, Option.bind, execs, hstep1]
  have hcall_i : calls[i]? = some g.call := by
    rw [← hS.calls_eq]
    simp [hg]
  rcases hshape with ⟨hend, hu, hS2⟩ | ⟨_, hS2⟩
  · -- goroutine `i` has returned: one more whole call
    have hfull : (program g.call).take (g.pc + 1) = program g.call := by
      rw [hend]
      exact List.take_length _
    rw [hfull] at hnext
    have hcall : callAt T c (g.call, t) w = some (out.1, out.2.setNow t) := by
      rw [callAt_eq_execs]
      exact hnext
    refine ⟨fin ++ [i], none, sc ++ [(g.call, t)], rs ++ [out.1], out.2.setNow t, hS2,
      ⟨?_, serial_snoc T c _ _ _ _ sc st rs hR.serial_eq hcall, ?_, ?_, hfresh2, ?_, ?_⟩⟩
    · simp [hR.calls_of, hcall_i]
    · simp [hrets, hR.rets, hret_i]
    · exact (exec_mus T c ins g.ret p.world out hout).2.1 hu
    · intro _
      rw [hw]
      rfl
    · intro j hj
      cases hj
  · -- goroutine `i` is inside
    refine ⟨fin, some i, sc, rs, w, hS2,
      ⟨hR.calls_of, hR.serial_eq, hrets.trans hR.rets, hR.free, hfresh2, ?_, ?_⟩⟩
    · intro hc
      cases hc
    · intro j hj
      cases hj
      exact ⟨g.advance out.1, t, (out.1, out.2.setNow t), hget_i, hnext, rfl, by rw [hw]⟩

/-- Before any call has begun nothing has been replayed. -/
theorem Replayed_start (T : Websocket σ ε ν ρ) (c : Connection η) (st : World σ η ν ρ)
    (calls : List (Call ν)) (hfree : st.mus c.mu = false) :
    Replayed T c st calls (start st calls : Pool σ ε η ν ρ) [] none [] [] st := by
  refine ⟨rfl, rfl, rfl, hfree, ?_, fun _ => rfl, ?_⟩
  · intro i g hg _
    simp only [start, List.getElem?_map, Option.map_eq_some'] at hg
    obtain ⟨cl, _, rfl⟩ := hg
    rfl
  · intro j hj
    cases hj

/-- Every schedule keeps both invariants. -/
theorem Replayed_run (T : Websocket σ ε ν ρ) (c : Connection η) (st : World σ η ν ρ)
    (calls : List (Call ν)) (sched : List Choice) :
    ∀ (p : Pool σ ε η ν ρ) (fin : List Nat) (cur : Option Nat) (sc : List (Call ν × Int))
      (rs : List (Option ε)) (w : World σ η ν ρ),
      Serial c calls p fin cur → Replayed T c st calls p fin cur sc rs w →
      ∃ fin2 cur2 sc2 rs2 w2, Serial c calls (run T c sched p) fin2 cur2 ∧
        Replayed T c st calls (run T c sched p) fin2 cur2 sc2 rs2 w2 := by
  induction sched with
  | nil => intro p fin cur sc rs w hS hR; exact ⟨fin, cur, sc, rs, w, hS, hR⟩
  | cons ch rest ih =>
    intro p fin cur sc rs w hS hR
    cases ch with
    | goroutine i =>
      simp only [run]
      cases hstep : step T c i p with
      | none => exact ih p fin cur sc rs w hS hR
      | some p2 =>
        obtain ⟨fin2, cur2, sc2, rs2, w2, hS2, hR2⟩ :=
          Replayed_step T c st calls i p p2 fin cur sc rs w hS hR hstep
        exact ih p2 fin2 cur2 sc2 rs2 w2 hS2 hR2
    | tick d =>
      simp only [run]
      exact ih _ fin cur sc rs w
        ⟨hS.calls_eq, hS.pc_le, hS.nodup, hS.fin_iff, hS.cur_iff, hS.mu_eq, hS.log_eq⟩
        ⟨hR.calls_of, hR.serial_eq, hR.rets, hR.free, hR.fresh, hR.idle, hR.busy⟩

/-- A goroutine that runs `SendResponse` alone makes the five steps of the
call and ends in the world, and with the error, of `SendResponse`. -/
theorem run_alone_send (T : Websocket σ ε ν ρ) (c : Connection η) (res : ν)
    (st : World σ η ν ρ) (hfree : st.mus c.mu = false) :
    ∃ err st2, SendResponse T c res st = some (err, st2) ∧
      (run T c (List.replicate 5 (.goroutine 0)) (start st [.send res])).world = st2 ∧
      (run T c (List.replicate 5 (.goroutine 0)) (start st [.send res])).goroutines
        = [{ call := .send res, pc := 5, ret := err }] := by
  refine ⟨_, _, SendResponse_run T c res st hfree, ?_, ?_⟩ <;>
    simp [List.replicate, run, step, exec, start, program, hfree, Goroutine.advance,
      World.emit, World.setMu, World.setConn, store_self _ _ _ hfree]

/-- A goroutine that runs `Close` alone makes the four steps of the call and
ends in the world of `Close`. -/
theorem run_alone_close (T : Websocket σ ε ν ρ) (c : Connection η)
    (st : World σ η ν ρ) (hfree : st.mus c.mu = false) :
    ∃ st2, Close T c st = some st2 ∧
      (run T c (List.replicate 4 (.goroutine 0))
        (start st [.close] : Pool σ ε η ν ρ)).world = st2 := by
  refine ⟨_, Close_run T c st hfree, ?_⟩
  simp [List.replicate, run, step, exec, start, program, hfree, Goroutine.advance,
    World.emit, World.setMu, World.setConn, store_self _ _ _ hfree]

theorem range_map_getElem? {α : Type} (l : List α) :
    (List.range l.length).map (fun i => l[i]?) = l.map some := by
  apply List.ext_getElem?
  intro k
  by_cases hk : k < l.length
  · simp [List.getElem?_range hk, List.getElem?_eq_getElem hk]
  · have h1 : (List.range l.length)[k]? = none := by
      rw [List.getElem?_eq_none_iff]
      simpa using hk
    have h2 : l[k]? = none := by
      rw [List.getElem?_eq_none_iff]
      omega
    simp [h1, h2]

/-- C10: any number of goroutines call `SendResponse` or `Close` on one
connection whose mutex is free, and `p` is the pool any schedule leads to.
Then (1) at most one goroutine is between its `Lock` and its `Unlock`, that
is, operating on the transport, and the mutex is held exactly when one is.
(2) The log of the steps made is the complete calls of the goroutines that
have returned, one whole call after the other, followed by the steps of the
one goroutine inside; and the world of the pool (the trace of calls issued,
the state of every transport, the mutexes) is the world that the methods
`SendResponse` and `Close` themselves produce when those calls are made one
at a time in that order, each at some clock reading, followed by the steps of
the goroutine inside; the goroutines that have returned hold the errors those
whole calls return.  (3) When all calls have returned, the world is the one
of the whole calls made one at a time in some order `order` of all of them,
every goroutine holds the error its whole call returns there, the trace added
is the events of those whole calls, and the number of `WriteJSON` calls
issued on the transport is the number of sends: `N` sends give `N` whole
write attempts, none cut by a step of another call.  (4) The schedule can
always be continued until every call has returned (no deadlock). -/
theorem SendResponse_Close_mutually_exclusive (T : Websocket σ ε ν ρ) (c : Connection η)
    (st : World σ η ν ρ) (calls : List (Call ν)) (sched : List Choice) (p : Pool σ ε η ν ρ)
    (hfree : st.mus c.mu = false) (hp : p = run T c sched (start st calls)) :
    (∀ (i j : Nat) (gi gj : Goroutine ε ν), p.goroutines[i]? = some gi →
      p.goroutines[j]? = some gj → gi.inside = true → gj.inside = true → i = j) ∧
    (p.world.mus c.mu = true ↔ ∃ g ∈ p.goroutines, g.inside = true) ∧
    (∃ (fin : List Nat) (cur : Option Nat) (sc : List (Call ν × Int))
        (rs : List (Option ε)) (w : World σ η ν ρ),
      (fin ++ cur.toList).Nodup ∧
      (∀ i, i ∈ fin ↔ ∃ g, p.goroutines[i]? = some g ∧ g.returned = true) ∧
      (∀ i, cur = some i ↔ ∃ g, p.goroutines[i]? = some g ∧ g.inside = true) ∧
      p.log = fin.flatMap (block calls) ++ cur.toList.flatMap (executed p) ∧
      fin.map (fun i => calls[i]?) = sc.map (fun x => some x.1) ∧
      serial T c sc st = some (rs, w) ∧
      fin.map (retOf p) = rs ∧
      (cur = none → p.world.setNow w.now = w) ∧
      (∀ j, cur = some j →
        ∃ (g : Goroutine ε ν) (t : Int) (out : Option ε × World σ η ν ρ),
          p.goroutines[j]? = some g ∧
          execs T c ((program g.call).take g.pc) none (w.setNow t) = some out ∧
          out.1 = g.ret ∧ p.world.setNow t = out.2)) ∧
    ((∀ g ∈ p.goroutines, g.returned = true) →
      ∃ (order : List Nat) (sc : List (Call ν × Int)) (rs : List (Option ε))
          (w : World σ η ν ρ),
        order.Perm (List.range calls.length) ∧
        p.log = order.flatMap (block calls) ∧
        order.map (fun i => calls[i]?) = sc.map (fun x => some x.1) ∧
        serial T c sc st = some (rs, w) ∧
        p.world.setNow w.now = w ∧
        order.map (retOf p) = rs ∧
        p.world.trace = st.trace ++ sc.flatMap (callEvents c) ∧
        (sc.flatMap (callEvents c : Call ν × Int → List (Event η ν ρ))).countP Event.isWrite
          = calls.countP Call.isSend) ∧
    (∃ sched2, ∀ g ∈ (run T c (sched ++ sched2) (start st calls) : Pool σ ε η ν ρ).goroutines,
      g.returned = true) := by
  obtain ⟨fin, cur, sc, rs, w, hS, hR⟩ := Replayed_run T c st calls sched
    (start st calls : Pool σ ε η ν ρ) [] none [] [] st (Serial_start c st calls hfree)
    (Replayed_start T c st calls hfree)
  rw [← hp] at hS hR
  have hblocks : fin.flatMap (executed p) = fin.flatMap (block calls) := by
    have : ∀ l : List Nat, (∀ i ∈ l, i ∈ fin) →
        l.flatMap (executed p) = l.flatMap (block calls) := by
      intro l
      induction l with
      | nil => intro _; rfl
      | cons a l ih =>
        intro hl
        simp only [List.flatMap_cons]
        rw [executed_returned c calls p fin cur hS a (hl a (by simp)),
          ih (fun i hi => hl i (by simp [hi]))]
    exact this fin (fun _ h => h)
  have hlog : p.log = fin.flatMap (block calls) ++ cur.toList.flatMap (executed p) := by
    rw [hS.log_eq, List.flatMap_append, hblocks]
  refine ⟨?_, ?_, ⟨fin, cur, sc, rs, w, hS.nodup, hS.fin_iff, hS.cur_iff, hlog, hR.calls_of,
    hR.serial_eq, hR.rets, hR.idle, hR.busy⟩, ?_, ?_⟩
  · intro i j gi gj hgi hgj hi hj
    have h1 := (hS.cur_iff i).2 ⟨gi, hgi, hi⟩
    have h2 := (hS.cur_iff j).2 ⟨gj, hgj, hj⟩
    rw [h1] at h2
    cases h2
    rfl
  · rw [hS.mu_eq]
    constructor
    · intro hc
      obtain ⟨j, hj⟩ := Option.isSome_iff_exists.1 hc
      obtain ⟨g, hg, hin⟩ := (hS.cur_iff j).1 hj
      exact ⟨g, List.mem_iff_getElem?.2 ⟨j, hg⟩, hin⟩
    · rintro ⟨g, hmem, hin⟩
      obtain ⟨j, hg⟩ := List.mem_iff_getElem?.1 hmem
      rw [(hS.cur_iff j).2 ⟨g, hg, hin⟩]
      rfl
  · intro hall
    have hcur : cur = none := by
      cases hc : cur with
      | none => rfl
      | some j =>
        exfalso
        obtain ⟨g, hg, hin⟩ := (hS.cur_iff j).1 hc
        have hret := hall g (List.mem_iff_getElem?.2 ⟨j, hg⟩)
        simp only [Goroutine.inside, Bool.and_eq_true, decide_eq_true_eq] at hin
        simp only [Goroutine.returned, beq_iff_eq] at hret
        omega
    subst hcur
    have hperm : fin.Perm (List.range calls.length) := by
      have hnodup : fin.Nodup := by simpa using hS.nodup
      rw [List.perm_ext_iff_of_nodup hnodup (List.nodup_range _)]
      intro i
      rw [hS.fin_iff i, List.mem_range]
      have hlen : p.goroutines.length = calls.length := by
        rw [← hS.calls_eq, List.length_map]
      constructor
      · rintro ⟨g, hg, _⟩
        rw [← hlen]
        exact (List.getElem?_eq_some_iff.1 hg).1
      · intro hi
        rw [← hlen] at hi
        exact ⟨p.goroutines[i], List.getElem?_eq_getElem hi,
          hall _ (List.getElem_mem hi)⟩
    have hworld := hR.idle rfl
    have htrace : p.world.trace = st.trace ++ sc.flatMap (callEvents c) := by
      rw [← serial_trace T c sc st w rs hR.serial_eq, ← hworld]
      rfl
    have hcount : (sc.flatMap (callEvents c : Call ν × Int → List (Event η ν ρ))).countP
        Event.isWrite = calls.countP Call.isSend := by
      have h1 : (sc.map (fun x => some x.1)).Perm (calls.map some) := by
        rw [← hR.calls_of, ← range_map_getElem? calls]
        exact hperm.map _
      have h2 := h1.countP_eq (fun o : Option (Call ν) =>
        match o with
        | some cl => cl.isSend
        | none => false)
      rw [callEvents_writes]
      simp only [List.countP_map] at h2 ⊢
      exact h2
    exact ⟨fin, sc, rs, w, hperm, by simpa using hlog, hR.calls_of, hR.serial_eq, hworld,
      hR.rets, htrace, hcount⟩
  · obtain ⟨sched2, h2⟩ := Serial_complete T c calls (remaining p) p fin cur (le_refl _) hS
    refine ⟨sched2, ?_⟩
    rw [run_append, ← hp]
    exact h2

/-- C10 at a concrete input: two sends and a close on the simulated
connection, under a schedule in which the second send takes the lock first,
the others try in between, and the close comes before the first send.  All
three return; the log is the three calls in the order 1, 2, 0; two `WriteJSON`
calls were issued; the wire holds `b` only, and the first send, made after the
close, returned the error of the closed transport. -/
theorem SendResponse_Close_mutually_exclusive_witness :
    (simWorld []).mus simConnection.mu = false ∧
      (run Sim simConnection demoSchedule (start (simWorld []) demoCalls)).log.map Prod.fst
        = [1, 1, 1, 1, 1, 2, 2, 2, 2, 0, 0, 0, 0, 0] ∧
      (run Sim simConnection demoSchedule (start (simWorld []) demoCalls)).world.trace.countP
        Event.isWrite = 2 ∧
      ((run Sim simConnection demoSchedule (start (simWorld []) demoCalls)).world.conns 0).wire
        = ["b"] ∧
      [0, 1, 2].map (retOf (run Sim simConnection demoSchedule (start (simWorld []) demoCalls)))
        = [some .closed, none, none] ∧
      ∃ (order : List Nat) (sc : List (Call String × Int)) (rs : List (Option SimError))
          (w : World SimConn Nat String (List Bytes)),
        order.Perm (List.range demoCalls.length) ∧
        (run Sim simConnection demoSchedule (start (simWorld []) demoCalls)).log
          = order.flatMap (block demoCalls) ∧
        order.map (fun i => demoCalls[i]?) = sc.map (fun x => some x.1) ∧
        serial Sim simConnection sc (simWorld []) = some (rs, w) ∧
        (run Sim simConnection demoSchedule (start (simWorld []) demoCalls)).world.setNow w.now
          = w ∧
        order.map (retOf (run Sim simConnection demoSchedule (start (simWorld []) demoCalls)))
          = rs ∧
        (run Sim simConnection demoSchedule (start (simWorld []) demoCalls)).world.trace
          = (simWorld []).trace ++ sc.flatMap (callEvents simConnection) ∧
        (sc.flatMap (callEvents simConnection :
            Call String × Int → List (Event Nat String (List Bytes)))).countP Event.isWrite
          = demoCalls.countP Call.isSend :=
  ⟨rfl, by decide, by decide, by decide, by decide,
    (SendResponse_Close_mutually_exclusive Sim simConnection (simWorld []) demoCalls
      demoSchedule _ rfl rfl).2.2.2.1 (by decide)⟩

end Ws
